import Mathlib

/-!
Verification development for the KaizenAI silence-removal server.

The repository ships two JavaScript implementations of the same pipeline in
`src/server.js`: the first one (`server.js`, the JUMPCUT-SAFE server, referred
to below as V1) and the second one (`server (2).js`, the Kaizen multi-file
processor, referred to below as V2).  JavaScript numbers are modelled as
rationals (`ℚ`); the numeric literals of the source (0.3, 0.5, 0.2, 0.08,
0.6) are embedded as the exact rationals they denote in the source text.
-/

/-! ## Data model -/

/-- A silence interval as produced by V2's `detectSilence`: `end` may be
`null` (modelled as `none`), meaning the silence extends to end of media. -/
structure Silence where
  start : ℚ
  «end» : Option ℚ
deriving DecidableEq

/-- A silence interval as produced by V1's `detectSilences`: both endpoints
are always numbers. -/
structure SilenceClosed where
  start : ℚ
  «end» : ℚ
deriving DecidableEq

/-- A keep segment `{start, end}` as produced by both planners. -/
structure KeepSegment where
  start : ℚ
  «end» : ℚ
deriving DecidableEq

/-! ## Configuration constants of V1 (`server.js`) -/

/-- V1 `MIN_SILENCE = 0.6`. -/
def MIN_SILENCE : ℚ := 3/5

/-- V1 `KEEP_BEFORE = 0.3`. -/
def KEEP_BEFORE : ℚ := 3/10

/-- V1 `KEEP_AFTER = 0.3`. -/
def KEEP_AFTER : ℚ := 3/10

/-- V1 `FADE = 0.08`. -/
def FADE : ℚ := 2/25

/-- `MAX_CONCURRENT_JOBS = 2` (V1). -/
def MAX_CONCURRENT_JOBS : ℕ := 2

/-! ## Segment planners -/

/-- The body of V2's `for (const s of silences)` loop: the accumulator is the
pair `(keep, cursor)`.  `s.end ?? totalDuration` is `getD`, `Math.max` is
`max`, and the JS comparison `cutStart - cursor >= minKeep` is
`minKeep ≤ cutStart - cursor`. -/
def keepStep (totalDuration postSpeechBuffer preSpeechBuffer minKeep : ℚ)
    (acc : List KeepSegment × ℚ) (s : Silence) : List KeepSegment × ℚ :=
  let e := s.«end».getD totalDuration
  let cutStart := s.start + postSpeechBuffer
  let cutEnd := e - preSpeechBuffer
  let keep := if minKeep ≤ cutStart - acc.2 then
      acc.1 ++ [⟨acc.2, cutStart⟩] else acc.1
  (keep, max acc.2 cutEnd)

/-- V2 `buildKeepSegments` (`server (2).js`).  The source takes a destructured
object `{silences, totalDuration, postSpeechBuffer = 0.5, preSpeechBuffer =
0.5, minKeep = 0.2}`; here the fields are positional parameters (callers in
the source always use the defaults `1/2`, `1/2`, `1/5`). -/
def buildKeepSegments (silences : List Silence)
    (totalDuration postSpeechBuffer preSpeechBuffer minKeep : ℚ) :
    List KeepSegment :=
  let p := silences.foldl
    (keepStep totalDuration postSpeechBuffer preSpeechBuffer minKeep) ([], 0)
  if minKeep ≤ totalDuration - p.2 then p.1 ++ [⟨p.2, totalDuration⟩] else p.1

/-- The body of V1's `for (const s of silences)` loop: pushes a segment
whenever `keepEnd > cursor` and moves the cursor to `nextStart` only in that
case. -/
def keepStep1 (acc : List KeepSegment × ℚ) (s : SilenceClosed) :
    List KeepSegment × ℚ :=
  let keepEnd := s.start + KEEP_BEFORE
  let nextStart := s.«end» - KEEP_AFTER
  if acc.2 < keepEnd then (acc.1 ++ [⟨acc.2, keepEnd⟩], nextStart) else acc

/-- V1 `buildKeepSegments` (`server.js`), with the fixed buffers
`KEEP_BEFORE`/`KEEP_AFTER`. -/
def buildKeepSegments1 (silences : List SilenceClosed) (duration : ℚ) :
    List KeepSegment :=
  let p := silences.foldl keepStep1 ([], 0)
  if p.2 < duration then p.1 ++ [⟨p.2, duration⟩] else p.1

example :
    buildKeepSegments [⟨3, some 5⟩] 10 (1/2) (1/2) (1/5) =
      [⟨0, 7/2⟩, ⟨9/2, 10⟩] := by
  simp only [buildKeepSegments, keepStep, List.foldl, Option.getD]
  norm_num [max_def]

example :
    buildKeepSegments [⟨3, some (31/10)⟩] 10 (1/2) (1/2) (1/5) =
      [⟨0, 7/2⟩, ⟨13/5, 10⟩] := by
  simp only [buildKeepSegments, keepStep, List.foldl, Option.getD]
  norm_num [max_def]

example : buildKeepSegments [] 10 (1/2) (1/2) (1/5) = [⟨0, 10⟩] := by
  simp only [buildKeepSegments, List.foldl]
  norm_num

example : buildKeepSegments1 [] 10 = [⟨0, 10⟩] := by
  simp only [buildKeepSegments1, List.foldl]
  norm_num

example : buildKeepSegments1 [⟨0, 10⟩] 10 = [⟨0, 3/10⟩, ⟨97/10, 10⟩] := by
  simp only [buildKeepSegments1, keepStep1, List.foldl, KEEP_BEFORE,
    KEEP_AFTER]
  norm_num

/-! ## Planner invariant (claim C1)

The loop invariant of both planners: the cursor stays within `[0, D]`, the
emitted segments are pairwise non-overlapping, every emitted segment is
non-degenerate and ends at or before the cursor, and the total kept duration
is bounded by the cursor. -/

/-- Loop invariant for the planner folds (`st = (keep, cursor)`). -/
def plannerInv (D : ℚ) (st : List KeepSegment × ℚ) : Prop :=
  0 ≤ st.2 ∧ st.2 ≤ D ∧
  st.1.Pairwise (fun a b => a.«end» ≤ b.start) ∧
  (∀ k ∈ st.1, k.start < k.«end» ∧ k.«end» ≤ st.2) ∧
  ((st.1.map fun k => k.«end» - k.start).sum ≤ st.2)

/-- The properties claimed of the planner output: strictly ordered by start,
pairwise non-overlapping, and total kept duration at most `D`. -/
def segProps (ks : List KeepSegment) (D : ℚ) : Prop :=
  ks.Pairwise (fun a b => a.start < b.start) ∧
  ks.Pairwise (fun a b => a.«end» ≤ b.start) ∧
  ((ks.map fun k => k.«end» - k.start).sum ≤ D)

theorem keepStep_inv (D p q mk : ℚ) (hmk : 0 < mk) (hq : 0 ≤ q)
    (s : Silence) (hs : s.start + p ≤ s.«end».getD D - q)
    (hsD : s.«end».getD D ≤ D)
    (st : List KeepSegment × ℚ) (h : plannerInv D st) :
    plannerInv D (keepStep D p q mk st s) := by
  obtain ⟨h0, hD2, hpw, hks, hsum⟩ := h
  have hcutED : s.«end».getD D - q ≤ D := by linarith
  simp only [keepStep, plannerInv]
  by_cases hif : mk ≤ s.start + p - st.2
  · simp only [if_pos hif]
    refine ⟨le_trans h0 (le_max_left _ _), max_le hD2 hcutED, ?_, ?_, ?_⟩
    · rw [List.pairwise_append]
      refine ⟨hpw, List.pairwise_singleton _ _, ?_⟩
      intro a ha b hb
      simp only [List.mem_singleton] at hb
      subst hb
      exact (hks a ha).2
    · intro k hk
      rcases List.mem_append.1 hk with hk | hk
      · exact ⟨(hks k hk).1, le_trans (hks k hk).2 (le_max_left _ _)⟩
      · simp only [List.mem_singleton] at hk
        subst hk
        constructor
        · show st.2 < s.start + p
          linarith
        · show s.start + p ≤ max st.2 (s.«end».getD D - q)
          exact le_trans hs (le_max_right _ _)
    · rw [List.map_append, List.sum_append]
      simp only [List.map_cons, List.map_nil, List.sum_cons, List.sum_nil]
      have : s.start + p ≤ max st.2 (s.«end».getD D - q) :=
        le_trans hs (le_max_right _ _)
      linarith
  · simp only [if_neg hif]
    exact ⟨le_trans h0 (le_max_left _ _), max_le hD2 hcutED, hpw,
      fun k hk => ⟨(hks k hk).1, le_trans (hks k hk).2 (le_max_left _ _)⟩,
      le_trans hsum (le_max_left _ _)⟩

theorem keepFold_inv (D p q mk : ℚ) (hmk : 0 < mk) (hq : 0 ≤ q)
    (sil : List Silence)
    (hsil : ∀ s ∈ sil, s.start + p ≤ s.«end».getD D - q ∧
      s.«end».getD D ≤ D) :
    ∀ st : List KeepSegment × ℚ, plannerInv D st →
      plannerInv D (sil.foldl (keepStep D p q mk) st) := by
  induction sil with
  | nil => intro st h; exact h
  | cons s rest ih =>
    intro st h
    rw [List.foldl_cons]
    exact ih (fun x hx => hsil x (List.mem_cons_of_mem _ hx)) _
      (keepStep_inv D p q mk hmk hq s (hsil s (List.mem_cons_self _ _)).1
        (hsil s (List.mem_cons_self _ _)).2 st h)

theorem keepStep1_inv (D : ℚ) (s : SilenceClosed)
    (hs : s.start + KEEP_BEFORE ≤ s.«end» - KEEP_AFTER) (hsD : s.«end» ≤ D)
    (st : List KeepSegment × ℚ) (h : plannerInv D st) :
    plannerInv D (keepStep1 st s) := by
  obtain ⟨h0, hD2, hpw, hks, hsum⟩ := h
  have hKA : (0:ℚ) ≤ KEEP_AFTER := by norm_num [KEEP_AFTER]
  simp only [keepStep1, plannerInv]
  by_cases hif : st.2 < s.start + KEEP_BEFORE
  · simp only [if_pos hif]
    refine ⟨by linarith, by linarith, ?_, ?_, ?_⟩
    · rw [List.pairwise_append]
      refine ⟨hpw, List.pairwise_singleton _ _, ?_⟩
      intro a ha b hb
      simp only [List.mem_singleton] at hb
      subst hb
      exact (hks a ha).2
    · intro k hk
      rcases List.mem_append.1 hk with hk | hk
      · refine ⟨(hks k hk).1, ?_⟩
        have := (hks k hk).2
        show k.«end» ≤ s.«end» - KEEP_AFTER
        linarith
      · simp only [List.mem_singleton] at hk
        subst hk
        exact ⟨hif, hs⟩
    · rw [List.map_append, List.sum_append]
      simp only [List.map_cons, List.map_nil, List.sum_cons, List.sum_nil]
      linarith
  · simp only [if_neg hif]
    exact ⟨h0, hD2, hpw, hks, hsum⟩

theorem keepFold1_inv (D : ℚ) (sil : List SilenceClosed)
    (hsil : ∀ s ∈ sil, s.start + KEEP_BEFORE ≤ s.«end» - KEEP_AFTER ∧
      s.«end» ≤ D) :
    ∀ st : List KeepSegment × ℚ, plannerInv D st →
      plannerInv D (sil.foldl keepStep1 st) := by
  induction sil with
  | nil => intro st h; exact h
  | cons s rest ih =>
    intro st h
    rw [List.foldl_cons]
    exact ih (fun x hx => hsil x (List.mem_cons_of_mem _ hx)) _
      (keepStep1_inv D s (hsil s (List.mem_cons_self _ _)).1
        (hsil s (List.mem_cons_self _ _)).2 st h)

/-- Segments satisfying the loop invariant, with the trailing segment
appended, satisfy the claimed output properties. -/
theorem segProps_append_final (D : ℚ) (st : List KeepSegment × ℚ)
    (h : plannerInv D st) (hlt : st.2 < D) :
    segProps (st.1 ++ [⟨st.2, D⟩]) D := by
  obtain ⟨h0, hD2, hpw, hks, hsum⟩ := h
  have hpw' : (st.1 ++ [(⟨st.2, D⟩ : KeepSegment)]).Pairwise
      (fun a b => a.«end» ≤ b.start) := by
    rw [List.pairwise_append]
    refine ⟨hpw, List.pairwise_singleton _ _, ?_⟩
    intro a ha b hb
    simp only [List.mem_singleton] at hb
    subst hb
    exact (hks a ha).2
  have hall : ∀ k ∈ st.1 ++ [(⟨st.2, D⟩ : KeepSegment)],
      k.start < k.«end» := by
    intro k hk
    rcases List.mem_append.1 hk with hk | hk
    · exact (hks k hk).1
    · simp only [List.mem_singleton] at hk
      subst hk
      exact hlt
  refine ⟨?_, hpw', ?_⟩
  · exact hpw'.imp_of_mem (fun {a b} ha hb hab =>
      lt_of_lt_of_le (hall a ha) hab)
  · rw [List.map_append, List.sum_append]
    simp only [List.map_cons, List.map_nil, List.sum_cons, List.sum_nil]
    linarith

/-- Segments satisfying the loop invariant satisfy the claimed output
properties. -/
theorem segProps_no_final (D : ℚ) (st : List KeepSegment × ℚ)
    (h : plannerInv D st) : segProps st.1 D := by
  obtain ⟨h0, hD2, hpw, hks, hsum⟩ := h
  exact ⟨hpw.imp_of_mem (fun {a b} ha hb hab =>
      lt_of_lt_of_le (hks a ha).1 hab), hpw, by linarith⟩

/-- Claim C1 (amended).  The claim as stated — for *every* silence list
ordered by start — fails (see the counterexample): a silence narrower than
the two buffers, or a silence ending past `totalDuration`, produces
overlapping segments or a kept duration exceeding `totalDuration`.  Under the
hypotheses that every silence is wide enough for both buffers
(`start + postBuffer ≤ (end ?? totalDuration) - preBuffer`) and ends at or
before `totalDuration`, with `0 < minKeep`, `0 ≤ preBuffer` and
`0 ≤ totalDuration`, both planners emit segments strictly ordered by start,
pairwise non-overlapping (each end ≤ the next start), with total kept
duration at most `totalDuration`. -/
theorem buildKeepSegments_ordered_disjoint_bounded
    (D p q mk : ℚ) (hmk : 0 < mk) (hq : 0 ≤ q) (hD : 0 ≤ D)
    (sil : List Silence)
    (hsil : ∀ s ∈ sil, s.start + p ≤ s.«end».getD D - q ∧
      s.«end».getD D ≤ D)
    (sil1 : List SilenceClosed)
    (hsil1 : ∀ s ∈ sil1, s.start + KEEP_BEFORE ≤ s.«end» - KEEP_AFTER ∧
      s.«end» ≤ D) :
    segProps (buildKeepSegments sil D p q mk) D ∧
    segProps (buildKeepSegments1 sil1 D) D := by
  have hinv0 : plannerInv D (([] : List KeepSegment), (0:ℚ)) :=
    ⟨le_refl 0, hD, List.Pairwise.nil, by simp, by simp⟩
  constructor
  · have hinv := keepFold_inv D p q mk hmk hq sil hsil _ hinv0
    show segProps
      (if mk ≤ D - (sil.foldl (keepStep D p q mk) ([], 0)).2 then
        (sil.foldl (keepStep D p q mk) ([], 0)).1 ++
          [⟨(sil.foldl (keepStep D p q mk) ([], 0)).2, D⟩]
      else (sil.foldl (keepStep D p q mk) ([], 0)).1) D
    by_cases hif : mk ≤ D - (sil.foldl (keepStep D p q mk) ([], 0)).2
    · rw [if_pos hif]
      exact segProps_append_final D _ hinv (by linarith)
    · rw [if_neg hif]
      exact segProps_no_final D _ hinv
  · have hinv := keepFold1_inv D sil1 hsil1 _ hinv0
    show segProps
      (if (sil1.foldl keepStep1 ([], 0)).2 < D then
        (sil1.foldl keepStep1 ([], 0)).1 ++
          [⟨(sil1.foldl keepStep1 ([], 0)).2, D⟩]
      else (sil1.foldl keepStep1 ([], 0)).1) D
    by_cases hif : (sil1.foldl keepStep1 ([], 0)).2 < D
    · rw [if_pos hif]
      exact segProps_append_final D _ hinv hif
    · rw [if_neg hif]
      exact segProps_no_final D _ hinv

/-- Witness for C1: the hypotheses hold at the worked example of the spec. -/
theorem buildKeepSegments_ordered_disjoint_bounded_witness :
    segProps (buildKeepSegments [⟨3, some 5⟩] 10 (1/2) (1/2) (1/5)) 10 ∧
    segProps (buildKeepSegments1 [⟨3, 5⟩] 10) 10 :=
  buildKeepSegments_ordered_disjoint_bounded 10 (1/2) (1/2) (1/5)
    (by norm_num) (by norm_num) (by norm_num)
    [⟨3, some 5⟩]
    (by
      intro s hs
      rw [List.mem_singleton] at hs
      subst hs
      norm_num [Option.getD])
    [⟨3, 5⟩]
    (by
      intro s hs
      rw [List.mem_singleton] at hs
      subst hs
      norm_num [KEEP_BEFORE, KEEP_AFTER])

/-- Counterexample for C1 as stated: with the implementations' default
buffers, a single silence (trivially ordered by start) violates the claimed
properties.  For V2, the silence `[3, 3.1]` (narrower than the buffers)
yields overlapping segments; a silence ending past `totalDuration` yields a
kept duration exceeding `totalDuration`; for V1, the zero-width silence
`[3, 3]` yields overlapping segments. -/
theorem keepSegments_claim_counterexample :
    ¬ segProps (buildKeepSegments [⟨3, some (31/10)⟩] 10 (1/2) (1/2) (1/5))
        10 ∧
    ¬ segProps (buildKeepSegments [⟨99/10, some 20⟩] 10 (1/2) (1/2) (1/5))
        10 ∧
    ¬ segProps (buildKeepSegments1 [⟨3, 3⟩] 10) 10 := by
  have h2 : buildKeepSegments [⟨3, some (31/10)⟩] 10 (1/2) (1/2) (1/5) =
      [⟨0, 7/2⟩, ⟨13/5, 10⟩] := by
    simp only [buildKeepSegments, keepStep, List.foldl, Option.getD]
    norm_num [max_def]
  have h3 : buildKeepSegments [⟨99/10, some 20⟩] 10 (1/2) (1/2) (1/5) =
      [⟨0, 52/5⟩] := by
    simp only [buildKeepSegments, keepStep, List.foldl, Option.getD]
    norm_num [max_def]
  have h1 : buildKeepSegments1 [⟨3, 3⟩] 10 = [⟨0, 33/10⟩, ⟨27/10, 10⟩] := by
    simp only [buildKeepSegments1, keepStep1, List.foldl, KEEP_BEFORE,
      KEEP_AFTER]
    norm_num
  refine ⟨?_, ?_, ?_⟩
  · rw [h2]
    rintro ⟨-, hnp, -⟩
    rw [List.pairwise_cons] at hnp
    have := hnp.1 ⟨13/5, 10⟩ (by simp)
    norm_num at this
  · rw [h3]
    rintro ⟨-, -, hsum⟩
    simp only [List.map_cons, List.map_nil, List.sum_cons, List.sum_nil]
      at hsum
    norm_num at hsum
  · rw [h1]
    rintro ⟨-, hnp, -⟩
    rw [List.pairwise_cons] at hnp
    have := hnp.1 ⟨27/10, 10⟩ (by simp)
    norm_num at this

/-- Claim C2: on `totalDuration = 10`, `silences = [{start: 3, end: 5}]`,
`preBuffer = postBuffer = 0.5`, `minKeep = 0.2`, V2's planner returns exactly
`[{0, 3.5}, {4.5, 10}]`. -/
theorem buildKeepSegments_example :
    buildKeepSegments [⟨3, some 5⟩] 10 (1/2) (1/2) (1/5) =
      [⟨0, 7/2⟩, ⟨9/2, 10⟩] := by
  simp only [buildKeepSegments, keepStep, List.foldl, Option.getD]
  norm_num [max_def]

/-- Claim C3 (amended).  The claim — empty output on an empty silence list
and on a full-span silence — is false (see the counterexample); the callers
in fact branch on `silences.length === 0` *before* invoking the planner.
What the planners actually return: on an empty silence list, the single
segment `[{0, totalDuration}]` (whenever the trailing condition admits it),
and on a single silence spanning `[0, totalDuration]`, two short buffer
segments at the extremes. -/
theorem buildKeepSegments_boundary (D : ℚ) (hD : 1/2 ≤ D) :
    buildKeepSegments [] D (1/2) (1/2) (1/5) = [⟨0, D⟩] ∧
    buildKeepSegments [⟨0, some D⟩] D (1/2) (1/2) (1/5) =
      [⟨0, 1/2⟩, ⟨D - 1/2, D⟩] ∧
    buildKeepSegments1 [] D = [⟨0, D⟩] ∧
    buildKeepSegments1 [⟨0, D⟩] D = [⟨0, 3/10⟩, ⟨D - 3/10, D⟩] := by
  refine ⟨?_, ?_, ?_, ?_⟩
  · simp only [buildKeepSegments, List.foldl]
    rw [if_pos (by linarith : (1:ℚ)/5 ≤ D - 0)]
    simp
  · simp only [buildKeepSegments, keepStep, List.foldl, Option.getD]
    rw [show max (0:ℚ) (D - 1/2) = D - 1/2 from max_eq_right (by linarith)]
    rw [if_pos (by norm_num : (1:ℚ)/5 ≤ 0 + 1/2 - 0)]
    rw [if_pos (by linarith : (1:ℚ)/5 ≤ D - (D - 1/2))]
    norm_num
  · simp only [buildKeepSegments1, List.foldl]
    rw [if_pos (by linarith : (0:ℚ) < D)]
    simp
  · simp only [buildKeepSegments1, keepStep1, List.foldl, KEEP_BEFORE,
      KEEP_AFTER]
    rw [if_pos (by norm_num : (0:ℚ) < 0 + 3/10)]
    rw [if_pos (by linarith : D - 3/10 < D)]
    norm_num

/-- Witness for C3 at `totalDuration = 10`. -/
theorem buildKeepSegments_boundary_witness :
    buildKeepSegments [] 10 (1/2) (1/2) (1/5) = [⟨0, 10⟩] ∧
    buildKeepSegments [⟨0, some 10⟩] 10 (1/2) (1/2) (1/5) =
      [⟨0, 1/2⟩, ⟨19/2, 10⟩] ∧
    buildKeepSegments1 [] 10 = [⟨0, 10⟩] ∧
    buildKeepSegments1 [⟨0, 10⟩] 10 = [⟨0, 3/10⟩, ⟨97/10, 10⟩] := by
  have h := buildKeepSegments_boundary 10 (by norm_num)
  refine ⟨h.1, ?_, h.2.2.1, ?_⟩
  · rw [h.2.1]
    norm_num
  · rw [h.2.2.2]
    norm_num

/-- Counterexample for C3 as stated: at `totalDuration = 10` neither planner
returns an empty sequence, neither on the empty silence list nor on a silence
spanning the whole file. -/
theorem keepSegments_boundary_counterexample :
    buildKeepSegments [] 10 (1/2) (1/2) (1/5) ≠ [] ∧
    buildKeepSegments [⟨0, some 10⟩] 10 (1/2) (1/2) (1/5) ≠ [] ∧
    buildKeepSegments1 [] 10 ≠ [] ∧
    buildKeepSegments1 [⟨0, 10⟩] 10 ≠ [] := by
  have h1 : buildKeepSegments [] 10 (1/2) (1/2) (1/5) = [⟨0, 10⟩] := by
    simp only [buildKeepSegments, List.foldl]
    norm_num
  have h2 : buildKeepSegments [⟨0, some 10⟩] 10 (1/2) (1/2) (1/5) =
      [⟨0, 1/2⟩, ⟨19/2, 10⟩] := by
    simp only [buildKeepSegments, keepStep, List.foldl, Option.getD]
    norm_num [max_def]
  have h3 : buildKeepSegments1 [] 10 = [⟨0, 10⟩] := by
    simp only [buildKeepSegments1, List.foldl]
    norm_num
  have h4 : buildKeepSegments1 [⟨0, 10⟩] 10 = [⟨0, 3/10⟩, ⟨97/10, 10⟩] := by
    simp only [buildKeepSegments1, keepStep1, List.foldl, KEEP_BEFORE,
      KEEP_AFTER]
    norm_num
  rw [h1, h2, h3, h4]
  refine ⟨by simp, by simp, by simp, by simp⟩

/-! ## Silence detectors (claim C4) -/

/-- One line of ffmpeg's diagnostic trace, abstracted to the two markers the
detectors look for: `silenceStart = some t` models a line containing
`silence_start` for which `parseFloat(line.split("silence_start:")[1])` is
`t`, and similarly `silenceEnd` models a `silence_end` marker.  A line with
neither marker is `⟨none, none⟩`. -/
structure TraceLine where
  silenceStart : Option ℚ
  silenceEnd : Option ℚ
deriving DecidableEq

/-- The body of V2's `log.split('\n').forEach(line => ...)` in
`detectSilence`: the state is `(silences, current)`; the first `if` installs
a new pending start, the second closes it unconditionally. -/
def detectSilenceStep (acc : List Silence × Option ℚ) (line : TraceLine) :
    List Silence × Option ℚ :=
  let cur := match line.silenceStart with
    | some t => some t
    | none => acc.2
  match line.silenceEnd, cur with
  | some e, some st => (acc.1 ++ [⟨st, some e⟩], none)
  | _, _ => (acc.1, cur)

/-- V2 `detectSilence` (`server (2).js`) as a function of the trace lines:
after the `forEach`, `if (current) silences.push({start, end: null})`. -/
def detectSilence (lines : List TraceLine) : List Silence :=
  match lines.foldl detectSilenceStep ([], none) with
  | (sil, some st) => sil ++ [⟨st, none⟩]
  | (sil, none) => sil

/-- The body of V1's per-line dispatch in `detectSilences`: a closed interval
is kept only if it is at least `MIN_SILENCE` long, and `start` is reset to
`null` in either case. -/
def detectSilencesStep (acc : List SilenceClosed × Option ℚ)
    (line : TraceLine) : List SilenceClosed × Option ℚ :=
  let st := match line.silenceStart with
    | some t => some t
    | none => acc.2
  match line.silenceEnd, st with
  | some e, some s =>
      ((if MIN_SILENCE ≤ e - s then acc.1 ++ [⟨s, e⟩] else acc.1), none)
  | _, _ => (acc.1, st)

/-- V1 `detectSilences` (`server.js`): returns the closed intervals only; a
pending start with no matching end is dropped when the trace ends. -/
def detectSilences (lines : List TraceLine) : List SilenceClosed :=
  (lines.foldl detectSilencesStep ([], none)).1

theorem detectSilenceStep_blank (acc : List Silence × Option ℚ)
    (line : TraceLine) (h1 : line.silenceStart = none)
    (h2 : line.silenceEnd = none) : detectSilenceStep acc line = acc := by
  simp [detectSilenceStep, h1, h2]

theorem detectSilence_foldl_blank (post : List TraceLine)
    (h : ∀ l ∈ post, l.silenceStart = none ∧ l.silenceEnd = none) :
    ∀ acc, post.foldl detectSilenceStep acc = acc := by
  induction post with
  | nil => intro acc; rfl
  | cons l rest ih =>
    intro acc
    rw [List.foldl_cons,
      detectSilenceStep_blank acc l (h l (List.mem_cons_self _ _)).1
        (h l (List.mem_cons_self _ _)).2]
    exact ih (fun x hx => h x (List.mem_cons_of_mem _ hx)) acc

theorem detectSilencesStep_blank (acc : List SilenceClosed × Option ℚ)
    (line : TraceLine) (h1 : line.silenceStart = none)
    (h2 : line.silenceEnd = none) : detectSilencesStep acc line = acc := by
  simp [detectSilencesStep, h1, h2]

theorem detectSilences_foldl_blank (post : List TraceLine)
    (h : ∀ l ∈ post, l.silenceStart = none ∧ l.silenceEnd = none) :
    ∀ acc, post.foldl detectSilencesStep acc = acc := by
  induction post with
  | nil => intro acc; rfl
  | cons l rest ih =>
    intro acc
    rw [List.foldl_cons,
      detectSilencesStep_blank acc l (h l (List.mem_cons_self _ _)).1
        (h l (List.mem_cons_self _ _)).2]
    exact ih (fun x hx => h x (List.mem_cons_of_mem _ hx)) acc

/-- Claim C4 (amended).  The claim holds for V2's `detectSilence`: a trace
ending after a dangling `silence_start: T` marker (no further markers before
end of trace) yields a final emitted interval `{start: T, end: null}`.  It
fails for V1's `detectSilences` (also cited by the claim), which *drops* the
pending interval: on the same trace it emits exactly what it emits for the
prefix before the dangling start. -/
theorem detect_pending_interval (pre post : List TraceLine) (T : ℚ)
    (hpost : ∀ l ∈ post, l.silenceStart = none ∧ l.silenceEnd = none) :
    (detectSilence (pre ++ ⟨some T, none⟩ :: post)).getLast? =
      some ⟨T, none⟩ ∧
    detectSilences (pre ++ ⟨some T, none⟩ :: post) = detectSilences pre := by
  have hstep : detectSilenceStep (pre.foldl detectSilenceStep ([], none))
      ⟨some T, none⟩ = ((pre.foldl detectSilenceStep ([], none)).1, some T) :=
    by simp [detectSilenceStep]
  have hfold : (pre ++ ⟨some T, none⟩ :: post).foldl detectSilenceStep
      ([], none) = ((pre.foldl detectSilenceStep ([], none)).1, some T) := by
    rw [List.foldl_append, List.foldl_cons, hstep,
      detectSilence_foldl_blank post hpost]
  have hstep1 : detectSilencesStep (pre.foldl detectSilencesStep ([], none))
      ⟨some T, none⟩ =
      ((pre.foldl detectSilencesStep ([], none)).1, some T) := by
    simp [detectSilencesStep]
  have hfold1 : (pre ++ ⟨some T, none⟩ :: post).foldl detectSilencesStep
      ([], none) =
      ((pre.foldl detectSilencesStep ([], none)).1, some T) := by
    rw [List.foldl_append, List.foldl_cons, hstep1,
      detectSilences_foldl_blank post hpost]
  constructor
  · rw [detectSilence, hfold]
    exact List.getLast?_concat _
  · rw [detectSilences, hfold1, detectSilences]

/-- Witness for C4: a trace with one closed silence and then a dangling
start at 5. -/
theorem detect_pending_interval_witness :
    (detectSilence [⟨some 1, none⟩, ⟨none, some 2⟩, ⟨some 5, none⟩,
      ⟨none, none⟩]).getLast? = some ⟨5, none⟩ ∧
    detectSilences [⟨some 1, none⟩, ⟨none, some 2⟩, ⟨some 5, none⟩,
      ⟨none, none⟩] = detectSilences [⟨some 1, none⟩, ⟨none, some 2⟩] :=
  detect_pending_interval [⟨some 1, none⟩, ⟨none, some 2⟩] [⟨none, none⟩] 5
    (by
      intro l hl
      rw [List.mem_singleton] at hl
      subst hl
      exact ⟨rfl, rfl⟩)

/-- Counterexample for C4 as stated: on the trace consisting of a single
dangling `silence_start: 3` marker, V1's `detectSilences` emits nothing at
all — the pending interval is dropped, not emitted with a null end — while
V2's `detectSilence` does emit `{start: 3, end: null}`. -/
theorem detectSilences_drops_pending :
    detectSilences [⟨some 3, none⟩] = [] ∧
    detectSilence [⟨some 3, none⟩] = [⟨3, none⟩] := by
  constructor
  · rfl
  · rfl

/-! ## Filter-graph builders (claim C5) -/

/-- One operation of a filter graph.  `vtrim`/`atrim` model one pushed chain
`[0:v]trim=start:end,setpts,...[vi]` (resp. `[0:a]atrim=...[ai]`) with its
optional fade-in and fade-out (the fade-out carries its start offset
`max 0 (dur - FADE)`) and its output label `i`; `concat` models a
`concat=n=..:v=..:a=..` filter together with the labels it references, in
order — a ref `(true, i)` is the video label `[vi]`, `(false, i)` the audio
label `[ai]`. -/
inductive FilterOp where
  | vtrim (start stop : ℚ) (fadeIn : Bool) (fadeOut : Option ℚ) (label : ℕ)
  | atrim (start stop : ℚ) (fadeIn : Bool) (fadeOut : Option ℚ) (label : ℕ)
  | concat (refs : List (Bool × ℕ)) (n numV numA : ℕ)
deriving DecidableEq

/-- The body of V1's `segs.forEach((s, i) => ...)`: two chains pushed per
segment, fade-in for `i > 0`, fade-out for `i < segs.length - 1`. -/
def graphBody (n : ℕ) (is : ℕ × KeepSegment) : List FilterOp :=
  let i := is.1
  let s := is.2
  let dur := s.«end» - s.start
  let fadeOut := max 0 (dur - FADE)
  [FilterOp.vtrim s.start s.«end» (decide (0 < i))
      (if i < n - 1 then some fadeOut else none) i,
   FilterOp.atrim s.start s.«end» (decide (0 < i))
      (if i < n - 1 then some fadeOut else none) i]

/-- V1 `buildFilterGraph` (`server.js`): per-segment chains followed by one
`concat=n=N:v=1:a=1` referencing the interleaved video/audio pairs. -/
def buildFilterGraph (segs : List KeepSegment) : List FilterOp :=
  segs.enum.flatMap (graphBody segs.length) ++
    [FilterOp.concat
      (segs.enum.flatMap (fun is => [(true, is.1), (false, is.1)]))
      segs.length 1 1]

/-- V2 `buildConcatFilter` (`server (2).js`): plain trims without fades,
then *two* concat filters — `concat=n=N:v=1:a=0[v]` over the video labels
and `concat=n=N:v=0:a=1[a]` over the audio labels. -/
def buildConcatFilter (segments : List KeepSegment) : List FilterOp :=
  segments.enum.map (fun is =>
      FilterOp.vtrim is.2.start is.2.«end» false none is.1) ++
  segments.enum.map (fun is =>
      FilterOp.atrim is.2.start is.2.«end» false none is.1) ++
  [FilterOp.concat (segments.enum.map (fun is => (true, is.1)))
      segments.length 1 0,
   FilterOp.concat (segments.enum.map (fun is => (false, is.1)))
      segments.length 0 1]

/-- The trim window of a video trim operation. -/
def FilterOp.vtrimRange : FilterOp → Option (ℚ × ℚ)
  | .vtrim s e _ _ _ => some (s, e)
  | _ => none

/-- The trim window of an audio trim operation. -/
def FilterOp.atrimRange : FilterOp → Option (ℚ × ℚ)
  | .atrim s e _ _ _ => some (s, e)
  | _ => none

/-- The referenced labels and segment count of a concat operation. -/
def FilterOp.concatData : FilterOp → Option (List (Bool × ℕ) × ℕ)
  | .concat refs n _ _ => some (refs, n)
  | _ => none

/-- The fade flags of a video trim operation. -/
def FilterOp.vtrimFades : FilterOp → Option (Bool × Option ℚ)
  | .vtrim _ _ fi fo _ => some (fi, fo)
  | _ => none

/-- The fade flags of an audio trim operation. -/
def FilterOp.atrimFades : FilterOp → Option (Bool × Option ℚ)
  | .atrim _ _ fi fo _ => some (fi, fo)
  | _ => none

theorem graphBody_filterMap_vtrimRange (n : ℕ) :
    ∀ l : List (ℕ × KeepSegment),
      (l.flatMap (graphBody n)).filterMap FilterOp.vtrimRange =
        l.map (fun is => (is.2.start, is.2.«end»)) := by
  intro l
  induction l with
  | nil => rfl
  | cons x xs ih =>
    rw [List.flatMap_cons, List.filterMap_append, ih]
    rfl

theorem graphBody_filterMap_atrimRange (n : ℕ) :
    ∀ l : List (ℕ × KeepSegment),
      (l.flatMap (graphBody n)).filterMap FilterOp.atrimRange =
        l.map (fun is => (is.2.start, is.2.«end»)) := by
  intro l
  induction l with
  | nil => rfl
  | cons x xs ih =>
    rw [List.flatMap_cons, List.filterMap_append, ih]
    rfl

theorem graphBody_filterMap_concatData (n : ℕ) :
    ∀ l : List (ℕ × KeepSegment),
      (l.flatMap (graphBody n)).filterMap FilterOp.concatData = [] := by
  intro l
  induction l with
  | nil => rfl
  | cons x xs ih =>
    rw [List.flatMap_cons, List.filterMap_append, ih]
    rfl

theorem graphBody_filterMap_vtrimFades (n : ℕ) :
    ∀ l : List (ℕ × KeepSegment),
      (l.flatMap (graphBody n)).filterMap FilterOp.vtrimFades =
        l.map (fun is => (decide (0 < is.1),
          if is.1 < n - 1 then
            some (max 0 (is.2.«end» - is.2.start - FADE)) else none)) := by
  intro l
  induction l with
  | nil => rfl
  | cons x xs ih =>
    rw [List.flatMap_cons, List.filterMap_append, ih]
    rfl

theorem graphBody_filterMap_atrimFades (n : ℕ) :
    ∀ l : List (ℕ × KeepSegment),
      (l.flatMap (graphBody n)).filterMap FilterOp.atrimFades =
        l.map (fun is => (decide (0 < is.1),
          if is.1 < n - 1 then
            some (max 0 (is.2.«end» - is.2.start - FADE)) else none)) := by
  intro l
  induction l with
  | nil => rfl
  | cons x xs ih =>
    rw [List.flatMap_cons, List.filterMap_append, ih]
    rfl

theorem vmap_filterMap_vtrimRange :
    ∀ l : List (ℕ × KeepSegment),
      ((l.map fun is =>
          FilterOp.vtrim is.2.start is.2.«end» false none is.1).filterMap
        FilterOp.vtrimRange) = l.map (fun is => (is.2.start, is.2.«end»)) := by
  intro l
  induction l with
  | nil => rfl
  | cons x xs ih =>
    rw [List.map_cons, List.filterMap_cons, List.map_cons, ← ih]
    rfl

theorem amap_filterMap_vtrimRange :
    ∀ l : List (ℕ × KeepSegment),
      ((l.map fun is =>
          FilterOp.atrim is.2.start is.2.«end» false none is.1).filterMap
        FilterOp.vtrimRange) = [] := by
  intro l
  induction l with
  | nil => rfl
  | cons x xs ih =>
    rw [List.map_cons, List.filterMap_cons, ← ih]
    rfl

theorem vmap_filterMap_atrimRange :
    ∀ l : List (ℕ × KeepSegment),
      ((l.map fun is =>
          FilterOp.vtrim is.2.start is.2.«end» false none is.1).filterMap
        FilterOp.atrimRange) = [] := by
  intro l
  induction l with
  | nil => rfl
  | cons x xs ih =>
    rw [List.map_cons, List.filterMap_cons, ← ih]
    rfl

theorem amap_filterMap_atrimRange :
    ∀ l : List (ℕ × KeepSegment),
      ((l.map fun is =>
          FilterOp.atrim is.2.start is.2.«end» false none is.1).filterMap
        FilterOp.atrimRange) = l.map (fun is => (is.2.start, is.2.«end»)) := by
  intro l
  induction l with
  | nil => rfl
  | cons x xs ih =>
    rw [List.map_cons, List.filterMap_cons, List.map_cons, ← ih]
    rfl

theorem vmap_filterMap_concatData :
    ∀ l : List (ℕ × KeepSegment),
      ((l.map fun is =>
          FilterOp.vtrim is.2.start is.2.«end» false none is.1).filterMap
        FilterOp.concatData) = [] := by
  intro l
  induction l with
  | nil => rfl
  | cons x xs ih =>
    rw [List.map_cons, List.filterMap_cons, ← ih]
    rfl

theorem amap_filterMap_concatData :
    ∀ l : List (ℕ × KeepSegment),
      ((l.map fun is =>
          FilterOp.atrim is.2.start is.2.«end» false none is.1).filterMap
        FilterOp.concatData) = [] := by
  intro l
  induction l with
  | nil => rfl
  | cons x xs ih =>
    rw [List.map_cons, List.filterMap_cons, ← ih]
    rfl

theorem vmap_filterMap_vtrimFades :
    ∀ l : List (ℕ × KeepSegment),
      ((l.map fun is =>
          FilterOp.vtrim is.2.start is.2.«end» false none is.1).filterMap
        FilterOp.vtrimFades) =
        l.map (fun _ => ((false : Bool), (none : Option ℚ))) := by
  intro l
  induction l with
  | nil => rfl
  | cons x xs ih =>
    rw [List.map_cons, List.filterMap_cons, List.map_cons, ← ih]
    rfl

theorem amap_filterMap_vtrimFades :
    ∀ l : List (ℕ × KeepSegment),
      ((l.map fun is =>
          FilterOp.atrim is.2.start is.2.«end» false none is.1).filterMap
        FilterOp.vtrimFades) = [] := by
  intro l
  induction l with
  | nil => rfl
  | cons x xs ih =>
    rw [List.map_cons, List.filterMap_cons, ← ih]
    rfl

theorem vmap_filterMap_atrimFades :
    ∀ l : List (ℕ × KeepSegment),
      ((l.map fun is =>
          FilterOp.vtrim is.2.start is.2.«end» false none is.1).filterMap
        FilterOp.atrimFades) = [] := by
  intro l
  induction l with
  | nil => rfl
  | cons x xs ih =>
    rw [List.map_cons, List.filterMap_cons, ← ih]
    rfl

theorem amap_filterMap_atrimFades :
    ∀ l : List (ℕ × KeepSegment),
      ((l.map fun is =>
          FilterOp.atrim is.2.start is.2.«end» false none is.1).filterMap
        FilterOp.atrimFades) =
        l.map (fun _ => ((false : Bool), (none : Option ℚ))) := by
  intro l
  induction l with
  | nil => rfl
  | cons x xs ih =>
    rw [List.map_cons, List.filterMap_cons, List.map_cons, ← ih]
    rfl

/-- `l.enum.map (fun is => g is.2) = l.map g`. -/
theorem enum_map_snd_comp {α β : Type} (l : List α) (g : α → β) :
    l.enum.map (fun is => g is.2) = l.map g := by
  rw [show (fun is : ℕ × α => g is.2) = g ∘ Prod.snd from rfl,
    ← List.map_map, List.enum_map_snd]

/-- `l.enum.flatMap (fun is => g is.1) = (range l.length).flatMap g`. -/
theorem enum_flatMap_fst_comp {α β : Type} (l : List α) (g : ℕ → List β) :
    l.enum.flatMap (fun is => g is.1) =
      (List.range l.length).flatMap g := by
  rw [show (fun is : ℕ × α => g is.1) = fun is : ℕ × α => g (Prod.fst is)
      from rfl,
    ← List.flatMap_map, List.enum_map_fst]

/-- `l.enum.map (fun is => g is.1) = (range l.length).map g`. -/
theorem enum_map_fst_comp {α β : Type} (l : List α) (g : ℕ → β) :
    l.enum.map (fun is => g is.1) = (List.range l.length).map g := by
  rw [show (fun is : ℕ × α => g is.1) = g ∘ Prod.fst from rfl,
    ← List.map_map, List.enum_map_fst]

/-- Claim C5 (amended).  For V1's `buildFilterGraph` on `N ≥ 1` segments the
claim holds in full: exactly `N` video and `N` audio trims, windows in the
planner's order, exactly one concat referencing all `N` video/audio label
pairs in order, first segment without fade-in and last without fade-out.
V2's `buildConcatFilter` (also cited by the claim) emits its `N` video and
`N` audio trims in order but *two* concat operations — one over the video
labels only, one over the audio labels only — and no fades at all. -/
theorem filterGraph_structure (segs : List KeepSegment) (hne : segs ≠ []) :
    (buildFilterGraph segs).filterMap FilterOp.vtrimRange =
      segs.map (fun s => (s.start, s.«end»)) ∧
    (buildFilterGraph segs).filterMap FilterOp.atrimRange =
      segs.map (fun s => (s.start, s.«end»)) ∧
    (buildFilterGraph segs).filterMap FilterOp.concatData =
      [((List.range segs.length).flatMap (fun i => [(true, i), (false, i)]),
        segs.length)] ∧
    (((buildFilterGraph segs).filterMap FilterOp.vtrimFades)[0]?).map
      Prod.fst = some false ∧
    (((buildFilterGraph segs).filterMap
        FilterOp.vtrimFades)[segs.length - 1]?).map Prod.snd = some none ∧
    (((buildFilterGraph segs).filterMap FilterOp.atrimFades)[0]?).map
      Prod.fst = some false ∧
    (((buildFilterGraph segs).filterMap
        FilterOp.atrimFades)[segs.length - 1]?).map Prod.snd = some none ∧
    (buildConcatFilter segs).filterMap FilterOp.vtrimRange =
      segs.map (fun s => (s.start, s.«end»)) ∧
    (buildConcatFilter segs).filterMap FilterOp.atrimRange =
      segs.map (fun s => (s.start, s.«end»)) ∧
    (buildConcatFilter segs).filterMap FilterOp.concatData =
      [((List.range segs.length).map (fun i => ((true : Bool), i)),
        segs.length),
       ((List.range segs.length).map (fun i => ((false : Bool), i)),
        segs.length)] ∧
    (buildConcatFilter segs).filterMap FilterOp.vtrimFades =
      segs.map (fun _ => ((false : Bool), (none : Option ℚ))) ∧
    (buildConcatFilter segs).filterMap FilterOp.atrimFades =
      segs.map (fun _ => ((false : Bool), (none : Option ℚ))) := by
  have hlen : segs.length - 1 < segs.length :=
    Nat.sub_lt (List.length_pos.2 hne) one_pos
  obtain ⟨s0, rest, rfl⟩ : ∃ s rest, segs = s :: rest := by
    cases segs with
    | nil => exact absurd rfl hne
    | cons a l => exact ⟨a, l, rfl⟩
  refine ⟨?_, ?_, ?_, ?_, ?_, ?_, ?_, ?_, ?_, ?_, ?_, ?_⟩
  · rw [buildFilterGraph, List.filterMap_append,
      graphBody_filterMap_vtrimRange]
    rw [show ∀ c : FilterOp, List.filterMap FilterOp.vtrimRange [c] =
        ([].filterMap FilterOp.vtrimRange ++
          List.filterMap FilterOp.vtrimRange [c]) from fun c => rfl]
    simp only [List.filterMap_cons, List.filterMap_nil, FilterOp.vtrimRange,
      List.append_nil]
    exact enum_map_snd_comp (s0 :: rest) (fun s => (s.start, s.«end»))
  · rw [buildFilterGraph, List.filterMap_append,
      graphBody_filterMap_atrimRange]
    simp only [List.filterMap_cons, List.filterMap_nil, FilterOp.atrimRange,
      List.append_nil]
    exact enum_map_snd_comp (s0 :: rest) (fun s => (s.start, s.«end»))
  · rw [buildFilterGraph, List.filterMap_append,
      graphBody_filterMap_concatData]
    simp only [List.filterMap_cons, List.filterMap_nil, FilterOp.concatData,
      List.nil_append]
    exact congrArg (fun refs => [(refs, (s0 :: rest).length)])
      (enum_flatMap_fst_comp (s0 :: rest)
        (fun i => [((true : Bool), i), ((false : Bool), i)]))
  · rw [buildFilterGraph, List.filterMap_append,
      graphBody_filterMap_vtrimFades]
    simp only [List.filterMap_cons, List.filterMap_nil, FilterOp.vtrimFades,
      List.append_nil]
    simp [List.enum_cons]
  · rw [buildFilterGraph, List.filterMap_append,
      graphBody_filterMap_vtrimFades]
    simp only [List.filterMap_cons, List.filterMap_nil, FilterOp.vtrimFades,
      List.append_nil]
    rw [List.getElem?_map, List.getElem?_enum,
      List.getElem?_eq_getElem hlen]
    simp
  · rw [buildFilterGraph, List.filterMap_append,
      graphBody_filterMap_atrimFades]
    simp only [List.filterMap_cons, List.filterMap_nil, FilterOp.atrimFades,
      List.append_nil]
    simp [List.enum_cons]
  · rw [buildFilterGraph, List.filterMap_append,
      graphBody_filterMap_atrimFades]
    simp only [List.filterMap_cons, List.filterMap_nil, FilterOp.atrimFades,
      List.append_nil]
    rw [List.getElem?_map, List.getElem?_enum,
      List.getElem?_eq_getElem hlen]
    simp
  · rw [buildConcatFilter, List.filterMap_append, List.filterMap_append,
      vmap_filterMap_vtrimRange, amap_filterMap_vtrimRange]
    simp only [List.filterMap_cons, List.filterMap_nil, FilterOp.vtrimRange,
      List.append_nil]
    exact enum_map_snd_comp (s0 :: rest) (fun s => (s.start, s.«end»))
  · rw [buildConcatFilter, List.filterMap_append, List.filterMap_append,
      vmap_filterMap_atrimRange, amap_filterMap_atrimRange]
    simp only [List.filterMap_cons, List.filterMap_nil, FilterOp.atrimRange,
      List.append_nil, List.nil_append]
    exact enum_map_snd_comp (s0 :: rest) (fun s => (s.start, s.«end»))
  · rw [buildConcatFilter, List.filterMap_append, List.filterMap_append,
      vmap_filterMap_concatData, amap_filterMap_concatData]
    simp only [List.filterMap_cons, List.filterMap_nil, FilterOp.concatData,
      List.nil_append]
    rw [enum_map_fst_comp, enum_map_fst_comp]
  · rw [buildConcatFilter, List.filterMap_append, List.filterMap_append,
      vmap_filterMap_vtrimFades, amap_filterMap_vtrimFades]
    simp only [List.filterMap_cons, List.filterMap_nil, FilterOp.vtrimFades,
      List.append_nil]
    exact enum_map_snd_comp (s0 :: rest)
      (fun _ => ((false : Bool), (none : Option ℚ)))
  · rw [buildConcatFilter, List.filterMap_append, List.filterMap_append,
      vmap_filterMap_atrimFades, amap_filterMap_atrimFades]
    simp only [List.filterMap_cons, List.filterMap_nil, FilterOp.atrimFades,
      List.append_nil, List.nil_append]
    exact enum_map_snd_comp (s0 :: rest)
      (fun _ => ((false : Bool), (none : Option ℚ)))

/-- Witness for C5 on two concrete segments. -/
theorem filterGraph_structure_witness :
    (buildFilterGraph [⟨0, 1⟩, ⟨2, 3⟩]).filterMap FilterOp.vtrimRange =
      [(0, 1), (2, 3)] ∧
    (buildFilterGraph [⟨0, 1⟩, ⟨2, 3⟩]).filterMap FilterOp.concatData =
      [([(true, 0), (false, 0), (true, 1), (false, 1)], 2)] ∧
    (((buildFilterGraph [⟨0, 1⟩, ⟨2, 3⟩]).filterMap
        FilterOp.vtrimFades)[0]?).map Prod.fst = some false ∧
    (((buildFilterGraph [⟨0, 1⟩, ⟨2, 3⟩]).filterMap
        FilterOp.vtrimFades)[1]?).map Prod.snd = some none := by
  have h := filterGraph_structure [⟨0, 1⟩, ⟨2, 3⟩] (by simp)
  refine ⟨?_, ?_, h.2.2.2.1, ?_⟩
  · rw [h.1]
    rfl
  · rw [h.2.2.1]
    rfl
  · have h5 := h.2.2.2.2.1
    simpa using h5

/-- Counterexample for C5 as stated: on the single segment `[{0, 1}]`, V2's
`buildConcatFilter` emits *two* concat operations (one referencing the video
label only, one the audio label only), not exactly one referencing the
video/audio pairs. -/
theorem buildConcatFilter_two_concats :
    (buildConcatFilter [⟨0, 1⟩]).filterMap FilterOp.concatData =
      [([(true, 0)], 1), ([(false, 0)], 1)] ∧
    ((buildConcatFilter [⟨0, 1⟩]).filterMap FilterOp.concatData).length ≠
      1 := by
  constructor
  · rfl
  · intro h
    rw [show (buildConcatFilter [⟨0, 1⟩]).filterMap FilterOp.concatData =
        [([(true, 0)], 1), ([(false, 0)], 1)] from rfl] at h
    simp at h

/-! ## Job queue / scheduler (claims C6, C7, C9)

V1's scheduler (`server.js`): the global `queue` array holds references to
job objects and `activeJobs` counts admitted jobs.  Job objects are modelled
as an append-only list (`jobs`), with queue entries as indices into it; this
mirrors the JS heap, where `jobs.delete` on TTL expiry never mutates a job
object that the queue or a running `runQueue` still references.  `runQueue`
runs synchronously up to the first `await processFile(...)` inside the file
loop, so one invocation admits the head job, marks it and its first file
PROCESSING, and suspends — unless the job has no files, in which case the
whole `try` block and the `finally` (decrement + recursive `runQueue()`)
run synchronously and admission continues down the queue. -/

/-- Status of a `FileTask` (`f.status` strings of V1). -/
inductive FStatus where
  | queued
  | processing
  | done
  | error
deriving DecidableEq

/-- Status of a `Job` (`job.status` strings of V1). -/
inductive JStatus where
  | queued
  | processing
  | done
  | error
deriving DecidableEq

/-- The scheduler-relevant part of a V1 job object. -/
structure QJob where
  status : JStatus
  files : List FStatus
deriving DecidableEq

/-- The scheduler state: job heap, pending queue (indices), `activeJobs`. -/
structure Sched where
  jobs : List QJob
  queue : List ℕ
  active : ℕ
deriving DecidableEq

/-- Entering the file loop: `f.status = "PROCESSING"` on the first file. -/
def startFiles : List FStatus → List FStatus
  | [] => []
  | _ :: rest => FStatus.processing :: rest

/-- One invocation of V1's `runQueue()`: an early return if the limit is
reached or the queue is empty, otherwise the head job is shifted and
admitted.  A job with files suspends at the first `await` (status and first
file PROCESSING); a job without files completes synchronously (DONE, net
active unchanged) and the `finally` recursion continues with the rest of the
queue.  The `none` branch (dangling index) is unreachable from reachable
states: the JS queue holds real job objects. -/
def runQueueAux : List ℕ → List QJob → ℕ → List QJob × List ℕ × ℕ
  | [], jobs, active => (jobs, [], active)
  | j :: rest, jobs, active =>
    if MAX_CONCURRENT_JOBS ≤ active then (jobs, j :: rest, active)
    else
      match jobs[j]? with
      | none => (jobs, rest, active)
      | some job =>
        match job.files with
        | [] => runQueueAux rest (jobs.set j ⟨JStatus.done, []⟩) active
        | _ :: _ =>
          (jobs.set j ⟨JStatus.processing, startFiles job.files⟩, rest,
            active + 1)

/-- `runQueue()` as a state transformer. -/
def runQueueStep (s : Sched) : Sched :=
  let r := runQueueAux s.queue s.jobs s.active
  ⟨r.1, r.2.1, r.2.2⟩

/-- The effect of the currently running file of a job completing: the unique
PROCESSING file becomes DONE and the next file (if any) becomes PROCESSING
(`ok = true`), or — when `processFile` throws — the file keeps its
PROCESSING status and the `catch` sets the job to ERROR (`ok = false`).
Returns the new file list and `some finalStatus` when the job leaves the
loop. -/
def advanceFiles : List FStatus → Bool → List FStatus × Option JStatus
  | [], _ => ([], none)
  | FStatus.done :: rest, ok =>
    let r := advanceFiles rest ok
    (FStatus.done :: r.1, r.2)
  | FStatus.processing :: rest, true =>
    match rest with
    | [] => ([FStatus.done], some JStatus.done)
    | _ :: _ => (FStatus.done :: startFiles rest, none)
  | FStatus.processing :: rest, false =>
    (FStatus.processing :: rest, some JStatus.error)
  | st :: rest, _ => (st :: rest, none)

/-- Resumption of `runQueue` when the awaited `processFile` of job `j`
settles: on a final outcome the job gets its terminal status, the `finally`
decrements `activeJobs` and re-invokes `runQueue()`. -/
def fileCompleteStep (s : Sched) (j : ℕ) (ok : Bool) : Sched :=
  match s.jobs[j]? with
  | none => s
  | some job =>
    let r := advanceFiles job.files ok
    match r.2 with
    | none => ⟨s.jobs.set j ⟨job.status, r.1⟩, s.queue, s.active⟩
    | some fin =>
      runQueueStep ⟨s.jobs.set j ⟨fin, r.1⟩, s.queue, s.active - 1⟩

/-- The scheduler's events: an upload (`/upload` pushes a fresh job with its
files and calls `runQueue()`), or the settlement of a running job's awaited
file (success or failure). -/
inductive SchedStep : Sched → Sched → Prop where
  | submit (s : Sched) (nFiles : ℕ) :
      SchedStep s (runQueueStep
        ⟨s.jobs ++ [⟨JStatus.queued, List.replicate nFiles FStatus.queued⟩],
          s.queue ++ [s.jobs.length], s.active⟩)
  | fileComplete (s : Sched) (j : ℕ) (ok : Bool)
      (hj : (s.jobs[j]?).map QJob.status = some JStatus.processing) :
      SchedStep s (fileCompleteStep s j ok)

/-- Reachable scheduler states (from the empty initial state). -/
inductive SchedReach : Sched → Prop where
  | init : SchedReach ⟨[], [], 0⟩
  | step {s t : Sched} : SchedReach s → SchedStep s t → SchedReach t

/-- The number of jobs currently in status PROCESSING. -/
def runningCount (jobs : List QJob) : ℕ :=
  jobs.countP (fun job => decide (job.status = JStatus.processing))

/-- Well-formed file list of a running job: a completed prefix, the current
file, an untouched suffix — i.e. files are worked strictly in order. -/
def wfFiles (fs : List FStatus) : Prop :=
  ∃ k m, fs = List.replicate k FStatus.done ++
    FStatus.processing :: List.replicate m FStatus.queued

/-- The scheduler's inductive invariant. -/
structure SchedInv (s : Sched) : Prop where
  activeEq : runningCount s.jobs = s.active
  activeLe : s.active ≤ MAX_CONCURRENT_JOBS
  queueLt : ∀ j ∈ s.queue, j < s.jobs.length
  queueQueued : ∀ j ∈ s.queue,
    (s.jobs[j]?).map QJob.status = some JStatus.queued
  queueNodup : s.queue.Nodup
  procWf : ∀ job ∈ s.jobs, job.status = JStatus.processing →
    wfFiles job.files
  noErr : ∀ job ∈ s.jobs, ∀ f ∈ job.files, f ≠ FStatus.error
  queuedAll : ∀ job ∈ s.jobs, job.status = JStatus.queued →
    ∀ f ∈ job.files, f = FStatus.queued

theorem countP_set_eq (p : QJob → Bool) :
    ∀ (l : List QJob) (i : ℕ) (v : QJob) (h : i < l.length),
      (l.set i v).countP p + (if p l[i] then 1 else 0) =
        l.countP p + (if p v then 1 else 0) := by
  intro l
  induction l with
  | nil =>
    intro i v h
    exact absurd h (by simp)
  | cons a t ih =>
    intro i v h
    cases i with
    | zero =>
      rw [List.set_cons_zero, List.countP_cons, List.countP_cons]
      rw [List.getElem_cons_zero]
      omega
    | succ n =>
      rw [List.set_cons_succ, List.countP_cons, List.countP_cons,
        List.getElem_cons_succ]
      have h' : n < t.length := by simpa using h
      have := ih n v h'
      omega

theorem advanceFiles_false (m : ℕ) : ∀ k,
    advanceFiles (List.replicate k FStatus.done ++
      FStatus.processing :: List.replicate m FStatus.queued) false =
    (List.replicate k FStatus.done ++
      FStatus.processing :: List.replicate m FStatus.queued,
      some JStatus.error) := by
  intro k
  induction k with
  | zero => simp [advanceFiles]
  | succ n ih => simp [List.replicate_succ, advanceFiles, ih]

theorem advanceFiles_true_last : ∀ k,
    advanceFiles (List.replicate k FStatus.done ++ [FStatus.processing])
      true = (List.replicate (k+1) FStatus.done, some JStatus.done) := by
  intro k
  induction k with
  | zero => simp [advanceFiles]
  | succ n ih =>
    rw [List.replicate_succ, List.cons_append]
    rw [show List.replicate (n + 1 + 1) FStatus.done =
      FStatus.done :: List.replicate (n + 1) FStatus.done from rfl]
    simp [advanceFiles, ih]

theorem advanceFiles_true_more (m : ℕ) : ∀ k,
    advanceFiles (List.replicate k FStatus.done ++
      FStatus.processing :: List.replicate (m+1) FStatus.queued) true =
    (List.replicate (k+1) FStatus.done ++
      FStatus.processing :: List.replicate m FStatus.queued, none) := by
  intro k
  induction k with
  | zero => simp [advanceFiles, List.replicate_succ, startFiles]
  | succ n ih =>
    rw [List.replicate_succ, List.cons_append]
    rw [show List.replicate (n + 1 + 1) FStatus.done =
      FStatus.done :: List.replicate (n + 1) FStatus.done from rfl]
    simp [advanceFiles, ih]

theorem wfFiles_noErr (fs : List FStatus) (h : wfFiles fs) :
    ∀ f ∈ fs, f ≠ FStatus.error := by
  obtain ⟨k, m, rfl⟩ := h
  intro f hf
  rcases List.mem_append.1 hf with hf | hf
  · rw [List.eq_of_mem_replicate hf]
    simp
  · rcases List.mem_cons.1 hf with hf | hf
    · rw [hf]
      simp
    · rw [List.eq_of_mem_replicate hf]
      simp

theorem SchedInv_push (s : Sched) (h : SchedInv s) (n : ℕ) :
    SchedInv ⟨s.jobs ++ [⟨JStatus.queued, List.replicate n FStatus.queued⟩],
      s.queue ++ [s.jobs.length], s.active⟩ := by
  obtain ⟨jobs, queue, active⟩ := s
  obtain ⟨hae, hal, hql, hqq, hnd, hpw, hne, hqa⟩ := h
  dsimp only at *
  constructor
  · dsimp only
    rw [runningCount, List.countP_append]
    rw [runningCount] at hae
    simp [hae]
  · exact hal
  · intro i hi
    rcases List.mem_append.1 hi with hi | hi
    · have := hql i hi
      simp only [List.length_append, List.length_cons, List.length_nil]
      omega
    · rw [List.mem_singleton] at hi
      subst hi
      simp only [List.length_append, List.length_cons, List.length_nil]
      omega
  · intro i hi
    rcases List.mem_append.1 hi with hi | hi
    · rw [List.getElem?_append_left (hql i hi)]
      exact hqq i hi
    · rw [List.mem_singleton] at hi
      subst hi
      rw [List.getElem?_concat_length]
      rfl
  · rw [List.nodup_append]
    refine ⟨hnd, by simp, ?_⟩
    intro a ha hb
    rw [List.mem_singleton] at hb
    subst hb
    exact absurd (hql _ ha) (lt_irrefl _)
  · intro job hjob hst
    rcases List.mem_append.1 hjob with hjob | hjob
    · exact hpw job hjob hst
    · rw [List.mem_singleton] at hjob
      subst hjob
      exact absurd hst (by simp)
  · intro job hjob f hf
    rcases List.mem_append.1 hjob with hjob | hjob
    · exact hne job hjob f hf
    · rw [List.mem_singleton] at hjob
      subst hjob
      simp only at hf
      rw [List.eq_of_mem_replicate hf]
      simp
  · intro job hjob hst f hf
    rcases List.mem_append.1 hjob with hjob | hjob
    · exact hqa job hjob hst f hf
    · rw [List.mem_singleton] at hjob
      subst hjob
      simp only at hf
      exact List.eq_of_mem_replicate hf

theorem SchedInv_complete (s : Sched) (h : SchedInv s) (j : ℕ) (job : QJob)
    (hjob : s.jobs[j]? = some job) (hstat : job.status = JStatus.processing)
    (fin : JStatus) (hfin1 : fin ≠ JStatus.processing)
    (hfin2 : fin ≠ JStatus.queued)
    (files' : List FStatus) (hfe : ∀ f ∈ files', f ≠ FStatus.error) :
    SchedInv ⟨s.jobs.set j ⟨fin, files'⟩, s.queue, s.active - 1⟩ := by
  obtain ⟨hlt, hget⟩ := List.getElem?_eq_some.1 hjob
  have hmem : job ∈ s.jobs := List.getElem?_mem hjob
  have hpos : 1 ≤ s.active := by
    rw [← h.activeEq, runningCount]
    have : 0 < s.jobs.countP
        (fun job => decide (job.status = JStatus.processing)) :=
      List.countP_pos_iff.2 ⟨job, hmem, by simp [hstat]⟩
    omega
  have hq_ne : ∀ i ∈ s.queue, j ≠ i := by
    intro i hi heq
    rw [← heq] at hi
    have hqq := h.queueQueued j hi
    rw [hjob] at hqq
    simp only [Option.map_some'] at hqq
    rw [hstat] at hqq
    exact absurd (Option.some.inj hqq) (by simp)
  constructor
  · dsimp only
    have hcnt := countP_set_eq
      (fun job => decide (job.status = JStatus.processing))
      s.jobs j ⟨fin, files'⟩ hlt
    rw [hget, if_pos (by simp [hstat]), if_neg (by simp [hfin1])] at hcnt
    have hae := h.activeEq
    rw [runningCount] at hae
    rw [runningCount]
    omega
  · dsimp only
    have := h.activeLe
    omega
  · intro i hi
    rw [List.length_set]
    exact h.queueLt i hi
  · intro i hi
    rw [List.getElem?_set_ne (hq_ne i hi)]
    exact h.queueQueued i hi
  · exact h.queueNodup
  · intro job' hjob' hst'
    rcases List.mem_or_eq_of_mem_set hjob' with hjob' | hjob'
    · exact h.procWf job' hjob' hst'
    · subst hjob'
      exact absurd hst' hfin1
  · intro job' hjob' f hf
    rcases List.mem_or_eq_of_mem_set hjob' with hjob' | hjob'
    · exact h.noErr job' hjob' f hf
    · subst hjob'
      exact hfe f hf
  · intro job' hjob' hst' f hf
    rcases List.mem_or_eq_of_mem_set hjob' with hjob' | hjob'
    · exact h.queuedAll job' hjob' hst' f hf
    · subst hjob'
      exact absurd hst' hfin2

theorem SchedInv_continue (s : Sched) (h : SchedInv s) (j : ℕ) (job : QJob)
    (hjob : s.jobs[j]? = some job) (hstat : job.status = JStatus.processing)
    (files' : List FStatus) (hwf' : wfFiles files') :
    SchedInv ⟨s.jobs.set j ⟨JStatus.processing, files'⟩, s.queue,
      s.active⟩ := by
  obtain ⟨hlt, hget⟩ := List.getElem?_eq_some.1 hjob
  have hq_ne : ∀ i ∈ s.queue, j ≠ i := by
    intro i hi heq
    rw [← heq] at hi
    have hqq := h.queueQueued j hi
    rw [hjob] at hqq
    simp only [Option.map_some'] at hqq
    rw [hstat] at hqq
    exact absurd (Option.some.inj hqq) (by simp)
  constructor
  · dsimp only
    have hcnt := countP_set_eq
      (fun job => decide (job.status = JStatus.processing))
      s.jobs j ⟨JStatus.processing, files'⟩ hlt
    rw [hget, if_pos (by simp [hstat]), if_pos (by simp)] at hcnt
    have hae := h.activeEq
    rw [runningCount] at hae
    rw [runningCount]
    omega
  · exact h.activeLe
  · intro i hi
    rw [List.length_set]
    exact h.queueLt i hi
  · intro i hi
    rw [List.getElem?_set_ne (hq_ne i hi)]
    exact h.queueQueued i hi
  · exact h.queueNodup
  · intro job' hjob' hst'
    rcases List.mem_or_eq_of_mem_set hjob' with hjob' | hjob'
    · exact h.procWf job' hjob' hst'
    · subst hjob'
      exact hwf'
  · intro job' hjob' f hf
    rcases List.mem_or_eq_of_mem_set hjob' with hjob' | hjob'
    · exact h.noErr job' hjob' f hf
    · subst hjob'
      exact wfFiles_noErr files' hwf' f hf
  · intro job' hjob' hst' f hf
    rcases List.mem_or_eq_of_mem_set hjob' with hjob' | hjob'
    · exact h.queuedAll job' hjob' hst' f hf
    · subst hjob'
      exact absurd hst' (by simp)

theorem runQueueAux_inv :
    ∀ (queue : List ℕ) (jobs : List QJob) (active : ℕ),
      SchedInv ⟨jobs, queue, active⟩ →
      SchedInv ⟨(runQueueAux queue jobs active).1,
        (runQueueAux queue jobs active).2.1,
        (runQueueAux queue jobs active).2.2⟩ := by
  intro queue
  induction queue with
  | nil =>
    intro jobs active h
    exact h
  | cons j rest ih =>
    intro jobs active h
    by_cases hcap : MAX_CONCURRENT_JOBS ≤ active
    · rw [runQueueAux, if_pos hcap]
      exact h
    · have hq := h.queueQueued j (List.mem_cons_self _ _)
      obtain ⟨job, hjob, hstat⟩ := Option.map_eq_some'.1 hq
      have hlt : j < jobs.length := h.queueLt j (List.mem_cons_self _ _)
      obtain ⟨_, hget⟩ := List.getElem?_eq_some.1 hjob
      have hjnotin : j ∉ rest := (List.nodup_cons.1 h.queueNodup).1
      have hrestnodup : rest.Nodup := (List.nodup_cons.1 h.queueNodup).2
      have hq_ne : ∀ i ∈ rest, j ≠ i := by
        intro i hi heq
        exact hjnotin (heq ▸ hi)
      cases hfiles : job.files with
      | nil =>
        rw [runQueueAux, if_neg hcap, hjob]
        simp only [hfiles]
        apply ih
        constructor
        · dsimp only
          have hcnt := countP_set_eq
            (fun job => decide (job.status = JStatus.processing))
            jobs j ⟨JStatus.done, []⟩ hlt
          rw [hget, if_neg (by simp [hstat]), if_neg (by simp)] at hcnt
          have hae : runningCount jobs = active := h.activeEq
          rw [runningCount] at hae
          rw [runningCount]
          omega
        · exact h.activeLe
        · intro i hi
          rw [List.length_set]
          exact h.queueLt i (List.mem_cons_of_mem _ hi)
        · intro i hi
          rw [List.getElem?_set_ne (hq_ne i hi)]
          exact h.queueQueued i (List.mem_cons_of_mem _ hi)
        · exact hrestnodup
        · intro job' hjob' hst'
          rcases List.mem_or_eq_of_mem_set hjob' with hjob' | hjob'
          · exact h.procWf job' hjob' hst'
          · subst hjob'
            exact absurd hst' (by simp)
        · intro job' hjob' f hf
          rcases List.mem_or_eq_of_mem_set hjob' with hjob' | hjob'
          · exact h.noErr job' hjob' f hf
          · subst hjob'
            simp at hf
        · intro job' hjob' hst' f hf
          rcases List.mem_or_eq_of_mem_set hjob' with hjob' | hjob'
          · exact h.queuedAll job' hjob' hst' f hf
          · subst hjob'
            exact absurd hst' (by simp)
      | cons f0 fs =>
        rw [runQueueAux, if_neg hcap, hjob]
        simp only [hfiles]
        have hallq : ∀ x ∈ job.files, x = FStatus.queued :=
          h.queuedAll job (List.getElem?_mem hjob) hstat
        have hfsq : ∀ x ∈ fs, x = FStatus.queued := by
          intro x hx
          exact hallq x (hfiles ▸ List.mem_cons_of_mem _ hx)
        have hfs_rep : fs = List.replicate fs.length FStatus.queued :=
          List.eq_replicate_iff.2 ⟨rfl, hfsq⟩
        constructor
        · dsimp only
          have hcnt := countP_set_eq
            (fun job => decide (job.status = JStatus.processing))
            jobs j ⟨JStatus.processing, startFiles (f0 :: fs)⟩ hlt
          rw [hget, if_neg (by simp [hstat]), if_pos (by simp)] at hcnt
          have hae : runningCount jobs = active := h.activeEq
          rw [runningCount] at hae
          rw [runningCount]
          omega
        · dsimp only
          rw [MAX_CONCURRENT_JOBS] at *
          omega
        · intro i hi
          rw [List.length_set]
          exact h.queueLt i (List.mem_cons_of_mem _ hi)
        · intro i hi
          rw [List.getElem?_set_ne (hq_ne i hi)]
          exact h.queueQueued i (List.mem_cons_of_mem _ hi)
        · exact hrestnodup
        · intro job' hjob' hst'
          rcases List.mem_or_eq_of_mem_set hjob' with hjob' | hjob'
          · exact h.procWf job' hjob' hst'
          · subst hjob'
            refine ⟨0, fs.length, ?_⟩
            simp only [startFiles, List.replicate, List.nil_append]
            rw [← hfs_rep]
        · intro job' hjob' f hf
          rcases List.mem_or_eq_of_mem_set hjob' with hjob' | hjob'
          · exact h.noErr job' hjob' f hf
          · subst hjob'
            simp only [startFiles] at hf
            rcases List.mem_cons.1 hf with hf | hf
            · rw [hf]
              simp
            · rw [hfsq f hf]
              simp
        · intro job' hjob' hst' f hf
          rcases List.mem_or_eq_of_mem_set hjob' with hjob' | hjob'
          · exact h.queuedAll job' hjob' hst' f hf
          · subst hjob'
            exact absurd hst' (by simp)

theorem fileComplete_inv (s : Sched) (h : SchedInv s) (j : ℕ) (ok : Bool)
    (hj : (s.jobs[j]?).map QJob.status = some JStatus.processing) :
    SchedInv (fileCompleteStep s j ok) := by
  obtain ⟨job, hjob, hstat⟩ := Option.map_eq_some'.1 hj
  have hmem : job ∈ s.jobs := List.getElem?_mem hjob
  obtain ⟨k, m, hfs⟩ := h.procWf job hmem hstat
  rw [fileCompleteStep, hjob]
  dsimp only
  cases ok with
  | false =>
    rw [hfs, advanceFiles_false]
    have hinv := SchedInv_complete s h j job hjob hstat JStatus.error
      (by simp) (by simp)
      (List.replicate k FStatus.done ++
        FStatus.processing :: List.replicate m FStatus.queued)
      (wfFiles_noErr _ ⟨k, m, rfl⟩)
    exact runQueueAux_inv _ _ _ hinv
  | true =>
    cases m with
    | zero =>
      rw [hfs]
      rw [show FStatus.processing :: List.replicate 0 FStatus.queued =
        [FStatus.processing] from rfl]
      rw [advanceFiles_true_last]
      have hinv := SchedInv_complete s h j job hjob hstat JStatus.done
        (by simp) (by simp) (List.replicate (k+1) FStatus.done)
        (by
          intro f hf
          rw [List.eq_of_mem_replicate hf]
          simp)
      exact runQueueAux_inv _ _ _ hinv
    | succ m' =>
      rw [hfs, advanceFiles_true_more]
      rw [hstat]
      exact SchedInv_continue s h j job hjob hstat
        (List.replicate (k+1) FStatus.done ++
          FStatus.processing :: List.replicate m' FStatus.queued)
        ⟨k+1, m', rfl⟩

/-- Every reachable scheduler state satisfies the invariant. -/
theorem schedReach_inv : ∀ s : Sched, SchedReach s → SchedInv s := by
  intro s h
  induction h with
  | init =>
    constructor <;> simp [runningCount]
  | step hr hstep ih =>
    cases hstep with
    | submit n => exact runQueueAux_inv _ _ _ (SchedInv_push _ ih n)
    | fileComplete j ok hj => exact fileComplete_inv _ ih j ok hj

/-- `runQueue` only touches jobs it admits from the queue: any index outside
the queue keeps its job object. -/
theorem runQueueAux_getElem_preserved :
    ∀ (queue : List ℕ) (jobs : List QJob) (active : ℕ) (i : ℕ),
      i ∉ queue → ((runQueueAux queue jobs active).1)[i]? = jobs[i]? := by
  intro queue
  induction queue with
  | nil =>
    intro jobs active i hi
    rfl
  | cons j rest ih =>
    intro jobs active i hi
    have hij : j ≠ i := fun heq => hi (heq ▸ List.mem_cons_self _ _)
    have hirest : i ∉ rest := fun hr => hi (List.mem_cons_of_mem _ hr)
    by_cases hcap : MAX_CONCURRENT_JOBS ≤ active
    · rw [runQueueAux, if_pos hcap]
    · rw [runQueueAux, if_neg hcap]
      cases hjob : jobs[j]? with
      | none => rfl
      | some job =>
        dsimp only
        cases hfiles : job.files with
        | nil =>
          dsimp only
          rw [ih _ _ i hirest, List.getElem?_set_ne hij]
        | cons f fs =>
          dsimp only
          rw [List.getElem?_set_ne hij]

/-- A job whose status is not QUEUED is not referenced by the pending
queue. -/
theorem notin_queue_of_status (s : Sched) (hinv : SchedInv s) (j : ℕ)
    (job : QJob) (hjob : s.jobs[j]? = some job)
    (hnq : job.status ≠ JStatus.queued) : j ∉ s.queue := by
  intro hmem
  have hqq := hinv.queueQueued j hmem
  rw [hjob] at hqq
  simp only [Option.map_some'] at hqq
  exact hnq (Option.some.inj hqq)

/-- Claim C6: in every reachable scheduler state at most
`MAX_CONCURRENT_JOBS = 2` jobs are in status PROCESSING, and invoking
`runQueue` when the limit is reached or the pending queue is empty is a
no-op that changes no job state. -/
theorem scheduler_concurrency_invariant :
    (∀ s : Sched, SchedReach s →
      runningCount s.jobs ≤ MAX_CONCURRENT_JOBS) ∧
    (∀ s : Sched, MAX_CONCURRENT_JOBS ≤ s.active ∨ s.queue = [] →
      runQueueStep s = s) := by
  constructor
  · intro s hs
    have h := schedReach_inv s hs
    rw [h.activeEq]
    exact h.activeLe
  · intro s hor
    obtain ⟨jobs, queue, active⟩ := s
    rcases hor with hcap | hq
    · dsimp only at hcap
      cases queue with
      | nil => rfl
      | cons j rest =>
        rw [runQueueStep]
        dsimp only
        rw [runQueueAux, if_pos hcap]
    · dsimp only at hq
      subst hq
      rfl

/-- Witness for C6 at the initial state. -/
theorem scheduler_concurrency_invariant_witness :
    runningCount (Sched.mk [] [] 0).jobs ≤ MAX_CONCURRENT_JOBS ∧
    runQueueStep ⟨[], [], 0⟩ = ⟨[], [], 0⟩ :=
  ⟨scheduler_concurrency_invariant.1 ⟨[], [], 0⟩ SchedReach.init,
   scheduler_concurrency_invariant.2 ⟨[], [], 0⟩ (Or.inr rfl)⟩

/-- Claim C9: in every reachable state of V1's scheduler no `FileTask` ever
has status ERROR — file statuses range over QUEUED/PROCESSING/DONE only —
and once a job is in status ERROR no step ever changes it again, so the file
that was PROCESSING when its job failed stays PROCESSING forever. -/
theorem fileStatus_no_error :
    (∀ s : Sched, SchedReach s → ∀ job ∈ s.jobs, ∀ f ∈ job.files,
      f ≠ FStatus.error) ∧
    (∀ s t : Sched, SchedReach s → SchedStep s t → ∀ j : ℕ, ∀ job : QJob,
      s.jobs[j]? = some job → job.status = JStatus.error →
      t.jobs[j]? = some job) := by
  constructor
  · intro s hs
    exact (schedReach_inv s hs).noErr
  · intro s t hs hstep j job hjob herr
    have hinv := schedReach_inv s hs
    have hjlt : j < s.jobs.length := (List.getElem?_eq_some.1 hjob).1
    have hjq : j ∉ s.queue :=
      notin_queue_of_status s hinv j job hjob (by rw [herr]; simp)
    cases hstep with
    | submit n =>
      show ((runQueueAux (s.queue ++ [s.jobs.length])
          (s.jobs ++ [⟨JStatus.queued, List.replicate n FStatus.queued⟩])
          s.active).1)[j]? = some job
      have hnotin : j ∉ s.queue ++ [s.jobs.length] := by
        intro hmem
        rcases List.mem_append.1 hmem with hm | hm
        · exact hjq hm
        · rw [List.mem_singleton] at hm
          omega
      rw [runQueueAux_getElem_preserved _ _ _ j hnotin,
        List.getElem?_append_left hjlt]
      exact hjob
    | fileComplete j' ok hj' =>
      obtain ⟨job', hjob', hstat'⟩ := Option.map_eq_some'.1 hj'
      have hne : j' ≠ j := by
        intro heq
        subst heq
        rw [hjob] at hjob'
        have := Option.some.inj hjob'
        rw [← this] at hstat'
        rw [herr] at hstat'
        exact absurd hstat' (by simp)
      obtain ⟨k, m, hfs⟩ := hinv.procWf job' (List.getElem?_mem hjob') hstat'
      rw [fileCompleteStep, hjob']
      dsimp only
      cases ok with
      | false =>
        rw [hfs, advanceFiles_false]
        dsimp only
        show ((runQueueAux s.queue _ _).1)[j]? = some job
        rw [runQueueAux_getElem_preserved _ _ _ j hjq,
          List.getElem?_set_ne hne]
        exact hjob
      | true =>
        cases m with
        | zero =>
          rw [hfs]
          rw [show FStatus.processing :: List.replicate 0 FStatus.queued =
            [FStatus.processing] from rfl]
          rw [advanceFiles_true_last]
          dsimp only
          show ((runQueueAux s.queue _ _).1)[j]? = some job
          rw [runQueueAux_getElem_preserved _ _ _ j hjq,
            List.getElem?_set_ne hne]
          exact hjob
        | succ m' =>
          rw [hfs, advanceFiles_true_more]
          dsimp only
          rw [List.getElem?_set_ne hne]
          exact hjob

/-- Witness for C9: a reachable state with a failed job (its file still
PROCESSING, none ERROR), that a further upload step leaves untouched. -/
theorem fileStatus_no_error_witness :
    (∀ f ∈ (QJob.mk JStatus.error [FStatus.processing]).files,
      f ≠ FStatus.error) ∧
    ((runQueueStep ⟨[⟨JStatus.error, [FStatus.processing]⟩,
        ⟨JStatus.queued, [FStatus.queued]⟩], [1], 0⟩).jobs)[0]? =
      some ⟨JStatus.error, [FStatus.processing]⟩ := by
  have h1 : SchedReach ⟨[⟨JStatus.processing, [FStatus.processing]⟩], [],
      1⟩ := by
    have heq : runQueueStep ⟨[⟨JStatus.queued, [FStatus.queued]⟩], [0], 0⟩ =
        ⟨[⟨JStatus.processing, [FStatus.processing]⟩], [], 1⟩ := by decide
    have hr := SchedReach.step SchedReach.init
      (SchedStep.submit ⟨[], [], 0⟩ 1)
    rw [show (⟨[], [], 0⟩ : Sched).jobs ++
        [⟨JStatus.queued, List.replicate 1 FStatus.queued⟩] =
        [⟨JStatus.queued, [FStatus.queued]⟩] from rfl] at hr
    rw [show (⟨[], [], 0⟩ : Sched).queue ++ [(⟨[], [], 0⟩ : Sched).jobs.length]
        = [0] from rfl] at hr
    rw [show (⟨[], [], 0⟩ : Sched).active = 0 from rfl] at hr
    rw [heq] at hr
    exact hr
  have h2 : SchedReach ⟨[⟨JStatus.error, [FStatus.processing]⟩], [], 0⟩ := by
    have heq : fileCompleteStep
        ⟨[⟨JStatus.processing, [FStatus.processing]⟩], [], 1⟩ 0 false =
        ⟨[⟨JStatus.error, [FStatus.processing]⟩], [], 0⟩ := by decide
    have hr := SchedReach.step h1 (SchedStep.fileComplete
      ⟨[⟨JStatus.processing, [FStatus.processing]⟩], [], 1⟩ 0 false
      (by decide))
    rw [heq] at hr
    exact hr
  constructor
  · exact fileStatus_no_error.1
      ⟨[⟨JStatus.error, [FStatus.processing]⟩], [], 0⟩ h2
      ⟨JStatus.error, [FStatus.processing]⟩ (by simp)
  · exact fileStatus_no_error.2
      ⟨[⟨JStatus.error, [FStatus.processing]⟩], [], 0⟩ _ h2
      (SchedStep.submit ⟨[⟨JStatus.error, [FStatus.processing]⟩], [], 0⟩ 1)
      0 ⟨JStatus.error, [FStatus.processing]⟩ rfl rfl

/-- Claim C7: within a job files are processed strictly in upload order (in
every reachable state a PROCESSING job's file list is a DONE prefix, one
PROCESSING file, and an untouched QUEUED suffix); when the running file of a
job fails, the job transitions to ERROR with its file list unchanged (the
remaining QUEUED files are never attempted), the scheduler decrements the
active count, and it immediately admits the next queued job (which becomes
PROCESSING), so one job's failure does not stall the queue. -/
theorem scheduler_file_order_and_drain :
    (∀ s : Sched, SchedReach s → ∀ job ∈ s.jobs,
      job.status = JStatus.processing → wfFiles job.files) ∧
    (∀ s : Sched, ∀ j : ℕ, ∀ job : QJob, SchedReach s →
      s.jobs[j]? = some job → job.status = JStatus.processing →
      ((fileCompleteStep s j false).jobs[j]? =
          some ⟨JStatus.error, job.files⟩ ∧
        (s.queue = [] → fileCompleteStep s j false =
          ⟨s.jobs.set j ⟨JStatus.error, job.files⟩, [], s.active - 1⟩) ∧
        (∀ q rest jobq, s.queue = q :: rest → s.jobs[q]? = some jobq →
          jobq.files ≠ [] →
          ((fileCompleteStep s j false).jobs[q]?).map QJob.status =
            some JStatus.processing))) := by
  constructor
  · intro s hs
    exact (schedReach_inv s hs).procWf
  · intro s j job hs hjob hstat
    have hinv := schedReach_inv s hs
    obtain ⟨hjlt, hget⟩ := List.getElem?_eq_some.1 hjob
    obtain ⟨k, m, hfs⟩ := hinv.procWf job (List.getElem?_mem hjob) hstat
    have hjq : j ∉ s.queue :=
      notin_queue_of_status s hinv j job hjob (by rw [hstat]; simp)
    have hpos : 1 ≤ s.active := by
      have hae : runningCount s.jobs = s.active := hinv.activeEq
      rw [runningCount] at hae
      have : 0 < s.jobs.countP
          (fun job => decide (job.status = JStatus.processing)) :=
        List.countP_pos_iff.2
          ⟨job, List.getElem?_mem hjob, by simp [hstat]⟩
      omega
    have hstep : fileCompleteStep s j false =
        runQueueStep ⟨s.jobs.set j ⟨JStatus.error, job.files⟩, s.queue,
          s.active - 1⟩ := by
      rw [fileCompleteStep, hjob]
      dsimp only
      rw [hfs, advanceFiles_false]
    refine ⟨?_, ?_, ?_⟩
    · rw [hstep]
      show ((runQueueAux s.queue _ _).1)[j]? = some ⟨JStatus.error, job.files⟩
      rw [runQueueAux_getElem_preserved _ _ _ j hjq,
        List.getElem?_set_self hjlt]
    · intro hq
      rw [hstep, hq]
      rfl
    · intro q rest jobq hq hqjob hqne
      rw [hstep, hq]
      have hq_in : q ∈ s.queue := hq ▸ List.mem_cons_self _ _
      have hqlt : q < s.jobs.length := hinv.queueLt q hq_in
      have hqj : j ≠ q := by
        intro heq
        exact hjq (heq ▸ hq_in)
      have hcap : ¬ (MAX_CONCURRENT_JOBS ≤ s.active - 1) := by
        have := hinv.activeLe
        rw [MAX_CONCURRENT_JOBS] at *
        omega
      show (((runQueueAux (q :: rest) (s.jobs.set j
          ⟨JStatus.error, job.files⟩) (s.active - 1)).1)[q]?).map
          QJob.status = some JStatus.processing
      rw [runQueueAux, if_neg hcap, List.getElem?_set_ne hqj, hqjob]
      dsimp only
      cases hjf : jobq.files with
      | nil => exact absurd hjf hqne
      | cons f fs =>
        dsimp only
        rw [List.getElem?_set_self (by rw [List.length_set]; exact hqlt)]
        rfl

/-- Witness for C7: two jobs PROCESSING, a third queued; job 0's file fails,
job 2 is admitted. -/
theorem scheduler_file_order_and_drain_witness :
    wfFiles [FStatus.processing] ∧
    ((fileCompleteStep ⟨[⟨JStatus.processing, [FStatus.processing]⟩,
        ⟨JStatus.processing, [FStatus.processing]⟩,
        ⟨JStatus.queued, [FStatus.queued]⟩], [2], 2⟩ 0 false).jobs[2]?).map
      QJob.status = some JStatus.processing := by
  have hC : SchedReach ⟨[⟨JStatus.processing, [FStatus.processing]⟩,
      ⟨JStatus.processing, [FStatus.processing]⟩,
      ⟨JStatus.queued, [FStatus.queued]⟩], [2], 2⟩ := by
    have hA : SchedReach ⟨[⟨JStatus.processing, [FStatus.processing]⟩], [],
        1⟩ := by
      have heq : runQueueStep ⟨[⟨JStatus.queued, [FStatus.queued]⟩], [0],
          0⟩ = ⟨[⟨JStatus.processing, [FStatus.processing]⟩], [], 1⟩ := by
        decide
      have hr := SchedReach.step SchedReach.init
        (SchedStep.submit ⟨[], [], 0⟩ 1)
      rw [show (⟨[], [], 0⟩ : Sched).jobs ++
          [⟨JStatus.queued, List.replicate 1 FStatus.queued⟩] =
          [⟨JStatus.queued, [FStatus.queued]⟩] from rfl,
        show (⟨[], [], 0⟩ : Sched).queue ++
          [(⟨[], [], 0⟩ : Sched).jobs.length] = [0] from rfl,
        show (⟨[], [], 0⟩ : Sched).active = 0 from rfl, heq] at hr
      exact hr
    have hB : SchedReach ⟨[⟨JStatus.processing, [FStatus.processing]⟩,
        ⟨JStatus.processing, [FStatus.processing]⟩], [], 2⟩ := by
      have heq : runQueueStep ⟨[⟨JStatus.processing, [FStatus.processing]⟩,
          ⟨JStatus.queued, [FStatus.queued]⟩], [1], 1⟩ =
          ⟨[⟨JStatus.processing, [FStatus.processing]⟩,
            ⟨JStatus.processing, [FStatus.processing]⟩], [], 2⟩ := by decide
      have hr := SchedReach.step hA (SchedStep.submit
        ⟨[⟨JStatus.processing, [FStatus.processing]⟩], [], 1⟩ 1)
      rw [show (⟨[⟨JStatus.processing, [FStatus.processing]⟩], [], 1⟩ :
          Sched).jobs ++
          [⟨JStatus.queued, List.replicate 1 FStatus.queued⟩] =
          [⟨JStatus.processing, [FStatus.processing]⟩,
            ⟨JStatus.queued, [FStatus.queued]⟩] from rfl,
        show (⟨[⟨JStatus.processing, [FStatus.processing]⟩], [], 1⟩ :
          Sched).queue ++ [(⟨[⟨JStatus.processing, [FStatus.processing]⟩],
            [], 1⟩ : Sched).jobs.length] = [1] from rfl,
        show (⟨[⟨JStatus.processing, [FStatus.processing]⟩], [], 1⟩ :
          Sched).active = 1 from rfl, heq] at hr
      exact hr
    have heq : runQueueStep ⟨[⟨JStatus.processing, [FStatus.processing]⟩,
        ⟨JStatus.processing, [FStatus.processing]⟩,
        ⟨JStatus.queued, [FStatus.queued]⟩], [2], 2⟩ =
        ⟨[⟨JStatus.processing, [FStatus.processing]⟩,
          ⟨JStatus.processing, [FStatus.processing]⟩,
          ⟨JStatus.queued, [FStatus.queued]⟩], [2], 2⟩ := by decide
    have hr := SchedReach.step hB (SchedStep.submit
      ⟨[⟨JStatus.processing, [FStatus.processing]⟩,
        ⟨JStatus.processing, [FStatus.processing]⟩], [], 2⟩ 1)
    rw [show (⟨[⟨JStatus.processing, [FStatus.processing]⟩,
        ⟨JStatus.processing, [FStatus.processing]⟩], [], 2⟩ :
        Sched).jobs ++
        [⟨JStatus.queued, List.replicate 1 FStatus.queued⟩] =
        [⟨JStatus.processing, [FStatus.processing]⟩,
          ⟨JStatus.processing, [FStatus.processing]⟩,
          ⟨JStatus.queued, [FStatus.queued]⟩] from rfl,
      show (⟨[⟨JStatus.processing, [FStatus.processing]⟩,
          ⟨JStatus.processing, [FStatus.processing]⟩], [], 2⟩ :
        Sched).queue ++ [(⟨[⟨JStatus.processing, [FStatus.processing]⟩,
          ⟨JStatus.processing, [FStatus.processing]⟩], [], 2⟩ :
        Sched).jobs.length] = [2] from rfl,
      show (⟨[⟨JStatus.processing, [FStatus.processing]⟩,
          ⟨JStatus.processing, [FStatus.processing]⟩], [], 2⟩ :
        Sched).active = 2 from rfl, heq] at hr
    exact hr
  have h := scheduler_file_order_and_drain.2
    ⟨[⟨JStatus.processing, [FStatus.processing]⟩,
      ⟨JStatus.processing, [FStatus.processing]⟩,
      ⟨JStatus.queued, [FStatus.queued]⟩], [2], 2⟩ 0
    ⟨JStatus.processing, [FStatus.processing]⟩ hC rfl rfl
  refine ⟨?_, ?_⟩
  · exact scheduler_file_order_and_drain.1
      ⟨[⟨JStatus.processing, [FStatus.processing]⟩,
        ⟨JStatus.processing, [FStatus.processing]⟩,
        ⟨JStatus.queued, [FStatus.queued]⟩], [2], 2⟩ hC
      ⟨JStatus.processing, [FStatus.processing]⟩ (by simp) rfl
  · exact h.2.2 2 [] ⟨JStatus.queued, [FStatus.queued]⟩ rfl rfl (by simp)

/-! ## Duration probes (claim C8) -/

/-- Numeric value of a decimal digit character. -/
def digitVal (c : Char) : ℕ := c.toNat - '0'.toNat

/-- Value of a decimal digit string. -/
def natOfDigits (ds : List Char) : ℕ :=
  ds.foldl (fun acc c => acc * 10 + digitVal c) 0

/-- Regex `\d+`: at least one leading digit, returning its value and the
rest. -/
def digits1 (cs : List Char) : Option (ℕ × List Char) :=
  match cs.takeWhile Char.isDigit with
  | [] => none
  | ds => some (natOfDigits ds, cs.dropWhile Char.isDigit)

/-- Match a literal character sequence at the head. -/
def dropLit : List Char → List Char → Option (List Char)
  | [], cs => some cs
  | _ :: _, [] => none
  | p :: ps, c :: cs => if c = p then dropLit ps cs else none

/-- Regex `\d+\.\d+`: digits, a dot, digits; returns the value of the
decimal numeral and the rest. -/
def decFrac (cs : List Char) : Option (ℚ × List Char) :=
  match digits1 cs with
  | none => none
  | some (ip, rest) =>
    match rest with
    | '.' :: rest2 =>
      match rest2.takeWhile Char.isDigit with
      | [] => none
      | ds => some ((ip : ℚ) + (natOfDigits ds : ℚ) / (10 : ℚ) ^ ds.length,
          rest2.dropWhile Char.isDigit)
    | _ => none

/-- Try to match V1's regex `/Duration: (\d+):(\d+):(\d+\.\d+)/` at the head
of the character list, returning the three captures. -/
def matchDurationAt (cs : List Char) : Option (ℕ × ℕ × ℚ) := do
  let cs1 ← dropLit "Duration: ".data cs
  let hm ← digits1 cs1
  let cs3 ← dropLit [':'] hm.2
  let mm ← digits1 cs3
  let cs5 ← dropLit [':'] mm.2
  let sec ← decFrac cs5
  pure (hm.1, mm.1, sec.1)

/-- First match of the duration regex anywhere in the log (the semantics of
`log.match(/Duration: (\d+):(\d+):(\d+\.\d+)/)`). -/
def findDuration : List Char → Option (ℕ × ℕ × ℚ)
  | [] => none
  | c :: rest =>
    match matchDurationAt (c :: rest) with
    | some r => some r
    | none => findDuration rest

/-- V1 `getDuration` (`server.js`).  `runFFmpeg` resolves (exit code 0) or
rejects (non-zero exit) with the captured stderr log; `getDuration` inspects
the log only in its `catch` branch.  On a resolved probe it falls off the
end of the `try` and returns `undefined` — modelled as `Option ℚ` with
`none` for `undefined`.  When the Duration marker is absent from the
rejection log it throws `"Duration parse failed"`; otherwise it returns
`h*3600 + m*60 + s`. -/
def getDuration1 (ffmpegResult : Except String String) :
    Except String (Option ℚ) :=
  match ffmpegResult with
  | .ok _ => .ok none
  | .error log =>
    match findDuration log.data with
    | none => .error "Duration parse failed"
    | some r => .ok (some ((r.1 : ℚ) * 3600 + (r.2.1 : ℚ) * 60 + r.2.2))

/-- JavaScript `parseFloat` restricted to plain decimal numerals (leading
whitespace skipped, optional sign, digits with an optional fraction part) —
the shape `ffprobe -show_entries format=duration` prints; `none` models
`NaN`. -/
def parseFloat? (s : String) : Option ℚ :=
  let cs := s.data.dropWhile (fun c => c.isWhitespace)
  let sgn : ℚ × List Char :=
    match cs with
    | '-' :: r => (-1, r)
    | '+' :: r => (1, r)
    | _ => (1, cs)
  match sgn.2.takeWhile Char.isDigit with
  | [] =>
    match sgn.2 with
    | '.' :: r =>
      match r.takeWhile Char.isDigit with
      | [] => none
      | ds => some (sgn.1 * ((natOfDigits ds : ℚ) / (10 : ℚ) ^ ds.length))
    | _ => none
  | ds =>
    let rest := sgn.2.dropWhile Char.isDigit
    match rest with
    | '.' :: r =>
      let fs := r.takeWhile Char.isDigit
      some (sgn.1 * ((natOfDigits ds : ℚ) +
        (natOfDigits fs : ℚ) / (10 : ℚ) ^ fs.length))
    | _ => some (sgn.1 * (natOfDigits ds : ℚ))

/-- V2 `getDuration` (`server (2).js`): the promise always resolves with
`parseFloat(out)` on close — it never rejects; `none` models `NaN`. -/
def getDuration2 (out : String) : Except String (Option ℚ) :=
  .ok (parseFloat? out)

example : (findDuration "x Duration: 00:01:30.50, start".data).isSome =
    true := by decide

example : getDuration1 (.error "x Duration: 00:01:30.50, start") =
    .ok (some (181/2)) := by
  have h : findDuration "x Duration: 00:01:30.50, start".data =
      some (0, 1, ((30 : ℕ) : ℚ) + ((50 : ℕ) : ℚ) / (10 : ℚ) ^ 2) := rfl
  rw [getDuration1, h]
  norm_num

example : parseFloat? "92.5" = some (185/2) := by
  have h : parseFloat? "92.5" =
      some (1 * (((92 : ℕ) : ℚ) + ((5 : ℕ) : ℚ) / (10 : ℚ) ^ 1)) := rfl
  rw [h]
  norm_num

/-- Claim C8 (amended).  V1's probe behaves as claimed: whenever the ffmpeg
log lacks a parsable `Duration:` marker, it aborts with the parse error
`"Duration parse failed"`.  V2's probe (also cited by the claim) does not:
it never rejects, and on unparsable ffprobe output it resolves with `NaN`
(modelled `none`) instead of aborting. -/
theorem getDuration_parse_error :
    (∀ log : String, findDuration log.data = none →
      getDuration1 (.error log) = .error "Duration parse failed") ∧
    (∀ out : String, parseFloat? out = none →
      getDuration2 out = .ok none) := by
  constructor
  · intro log h
    rw [getDuration1, h]
  · intro out h
    rw [getDuration2, h]

/-- Witness for C8 on concrete tool outputs. -/
theorem getDuration_parse_error_witness :
    getDuration1 (.error "pipe:0: Invalid data found when processing input")
      = .error "Duration parse failed" ∧
    getDuration2 "N/A" = .ok none :=
  ⟨getDuration_parse_error.1 _ rfl, getDuration_parse_error.2 _ rfl⟩

/-- Counterexample for C8 as stated: V2's probe, on empty or unparsable
ffprobe output (tool missing, no duration in the stream), resolves
successfully with `NaN` (`none`) — it does not abort with a parse error. -/
theorem getDuration2_resolves_nan :
    getDuration2 "" = .ok none ∧
    getDuration2 "N/A\n" = .ok none := by
  constructor
  · rfl
  · rfl

/-! ## Job-creation middleware and routes (claim C10)

V1 registers its job-creation middleware with `app.use((req, res, next) =>
{...})` *before* the `/upload`, `/status/:jobId` and `/download/:jobId/:file`
routes, so every request reaching a route first creates a fresh job, makes
its two directories on disk and schedules a TTL deletion timer.  The model
state carries the `jobs` map (association list keyed by job id), the
directories created on disk, and the scheduled timers; `uid()` is modelled
by a fresh-id counter. -/

/-- The two per-job directories the middleware creates. -/
inductive DirKind where
  | uploads
  | outputs
deriving DecidableEq

/-- A V1 job record as created by the middleware. -/
structure WebJob where
  id : ℕ
  status : JStatus
  files : List FStatus
  uploadDir : ℕ × DirKind
  outputDir : ℕ × DirKind
deriving DecidableEq

/-- Server state touched by the middleware and the route handlers. -/
structure WebState where
  nextId : ℕ
  jobs : List (ℕ × WebJob)
  fsDirs : List (ℕ × DirKind)
  timers : List ℕ
deriving DecidableEq

/-- `jobs.get(id)`. -/
def lookupJob (jobs : List (ℕ × WebJob)) (id : ℕ) : Option WebJob :=
  match jobs.find? (fun kv => kv.1 == id) with
  | some kv => some kv.2
  | none => none

/-- The `app.use` job-creation middleware: fresh id, QUEUED job record with
no files inserted into the map, upload and output directories created on
disk, TTL deletion timer scheduled; the job record is attached to the
request (`req.job`). -/
def jobCreationMiddleware (st : WebState) : WebState × WebJob :=
  let jobId := st.nextId
  let job : WebJob := ⟨jobId, JStatus.queued, [], (jobId, DirKind.uploads),
    (jobId, DirKind.outputs)⟩
  (⟨jobId + 1,
    st.jobs ++ [(jobId, job)],
    st.fsDirs ++ [(jobId, DirKind.uploads), (jobId, DirKind.outputs)],
    st.timers ++ [jobId]⟩, job)

/-- The V1 requests that reach the route handlers. -/
inductive Request where
  | upload (nFiles : ℕ)
  | statusReq (jobId : ℕ)
  | downloadReq (jobId : ℕ) (file : ℕ)

/-- The responses of the route handlers. -/
inductive Response where
  | redirect (jobId : ℕ)
  | statusPage (done : Bool)
  | expired
  | fileStream

/-- V1's request pipeline: the job-creation middleware runs first on *every*
request, then the matching route handler runs.  `/upload` pushes the
uploaded files into the middleware's fresh job (`req.job`) and redirects to
its status page (the enqueue and `runQueue()` call are modelled by the
scheduler above); `/status` and `/download` only read the jobs map, looking
up the id taken from the URL (not the fresh job's). -/
def handleRequest (st : WebState) (r : Request) : WebState × Response :=
  let mw := jobCreationMiddleware st
  match r with
  | .upload n =>
    (⟨mw.1.nextId,
      mw.1.jobs.map (fun kv => if kv.1 = mw.2.id then
        (kv.1, ⟨kv.2.id, kv.2.status, List.replicate n FStatus.queued,
          kv.2.uploadDir, kv.2.outputDir⟩) else kv),
      mw.1.fsDirs, mw.1.timers⟩, .redirect mw.2.id)
  | .statusReq j =>
    match lookupJob mw.1.jobs j with
    | none => (mw.1, .expired)
    | some job => (mw.1, .statusPage (job.status == JStatus.done))
  | .downloadReq j _ =>
    match lookupJob mw.1.jobs j with
    | none => (mw.1, .expired)
    | some _ => (mw.1, .fileStream)

/-- `map Prod.fst` is unchanged by a value-only update of the matching
key. -/
theorem map_fst_update (l : List (ℕ × WebJob)) (idv : ℕ)
    (g : WebJob → WebJob) :
    ((l.map (fun kv => if kv.1 = idv then (kv.1, g kv.2) else kv)).map
      Prod.fst) = l.map Prod.fst := by
  induction l with
  | nil => rfl
  | cons kv t ih =>
    simp only [List.map_cons]
    by_cases hc : kv.1 = idv <;> simp [hc, ih]

/-- Claim C10: every incoming request — status and download lookups
included — runs the job-creation middleware: the jobs map gains exactly one
fresh entry keyed by the fresh id, the two job directories are created on
disk, a TTL timer is scheduled, and the id counter advances — so a status
or download lookup is not a read-only operation on the job map. -/
theorem middleware_creates_job_every_request (st : WebState) (r : Request) :
    (handleRequest st r).1.jobs.map Prod.fst =
      st.jobs.map Prod.fst ++ [st.nextId] ∧
    (handleRequest st r).1.jobs.length = st.jobs.length + 1 ∧
    (handleRequest st r).1.fsDirs =
      st.fsDirs ++ [(st.nextId, DirKind.uploads),
        (st.nextId, DirKind.outputs)] ∧
    (handleRequest st r).1.timers = st.timers ++ [st.nextId] ∧
    (handleRequest st r).1.nextId = st.nextId + 1 := by
  have hmw1 : (jobCreationMiddleware st).1.jobs.map Prod.fst =
      st.jobs.map Prod.fst ++ [st.nextId] := by
    simp [jobCreationMiddleware]
  have hmw2 : (jobCreationMiddleware st).1.jobs.length =
      st.jobs.length + 1 := by
    simp [jobCreationMiddleware]
  have hmw3 : (jobCreationMiddleware st).1.fsDirs =
      st.fsDirs ++ [(st.nextId, DirKind.uploads),
        (st.nextId, DirKind.outputs)] := rfl
  have hmw4 : (jobCreationMiddleware st).1.timers =
      st.timers ++ [st.nextId] := rfl
  have hmw5 : (jobCreationMiddleware st).1.nextId = st.nextId + 1 := rfl
  cases r with
  | upload n =>
    have hupd := map_fst_update (jobCreationMiddleware st).1.jobs
      (jobCreationMiddleware st).2.id
      (fun w => ⟨w.id, w.status, List.replicate n FStatus.queued,
        w.uploadDir, w.outputDir⟩)
    refine ⟨hupd.trans hmw1, ?_, hmw3, hmw4, hmw5⟩
    show ((jobCreationMiddleware st).1.jobs.map _).length =
      st.jobs.length + 1
    rw [List.length_map]
    exact hmw2
  | statusReq j =>
    have hstate : (handleRequest st (Request.statusReq j)).1 =
        (jobCreationMiddleware st).1 := by
      show (match lookupJob (jobCreationMiddleware st).1.jobs j with
        | none => ((jobCreationMiddleware st).1, Response.expired)
        | some job => ((jobCreationMiddleware st).1,
            Response.statusPage (job.status == JStatus.done))).1 =
        (jobCreationMiddleware st).1
      cases lookupJob (jobCreationMiddleware st).1.jobs j <;> rfl
    rw [hstate]
    exact ⟨hmw1, hmw2, hmw3, hmw4, hmw5⟩
  | downloadReq j f =>
    have hstate : (handleRequest st (Request.downloadReq j f)).1 =
        (jobCreationMiddleware st).1 := by
      show (match lookupJob (jobCreationMiddleware st).1.jobs j with
        | none => ((jobCreationMiddleware st).1, Response.expired)
        | some _ => ((jobCreationMiddleware st).1,
            Response.fileStream)).1 =
        (jobCreationMiddleware st).1
      cases lookupJob (jobCreationMiddleware st).1.jobs j <;> rfl
    rw [hstate]
    exact ⟨hmw1, hmw2, hmw3, hmw4, hmw5⟩
